import Mathlib

/-!
# Raw struct decoder and message envelope decoder of thrift-iterator

A shallow embedding of `raw/decode_struct.go` and `general/decode_message.go`.

The decoders are written against the `spi.Iterator` interface, which is not part of the
embedded sources; it is taken as a parameter: a record of operations over an arbitrary cursor
state `σ`.  A Go call on the iterator either returns a value or does not return (it fails,
a panic); in both cases it may have moved the cursor, so every operation returns the pair of
its outcome and the cursor state it leaves behind.  The decoders have no error result of
their own and consult no error flag of the iterator: a call that does not return ends the
decoder call on the spot, and a call that returns is, for the decoders, a call that
succeeded, whatever the iterator recorded in its own state.  An iterator of the second kind,
which records a failure in an error field and returns a zero value, is obtained from any
iterator by `spi.recorded`; the statements that hold only for failures of the first kind say
so, and are shown not to hold for the second kind on concrete inputs.

The target of a decoder (`val interface{}`, a pointer) is modelled as a cell whose content is
passed in and handed back, so that "the target was not assigned" is a statement about values.
The `for { ... }` loop of the raw struct decoder is modelled with fuel; running out of fuel is
reported as `Completion.running`.
-/

namespace protocol

/-- Modelled from the spec: the enumerated wire-type classification `protocol.TType`
(stop, boolean, byte, i16/i32/i64, double, string/binary, list, set, map, struct), whose
declaration is not among the embedded sources. -/
inductive TType where
  | TypeStop
  | TypeBool
  | TypeByte
  | TypeI16
  | TypeI32
  | TypeI64
  | TypeDouble
  | TypeString
  | TypeList
  | TypeSet
  | TypeMap
  | TypeStruct
  deriving DecidableEq, Repr

/-- Field identifier `protocol.FieldId` (a 16-bit signed integer in the source; the decoders
only use it as a map key and never compute with it). -/
abbrev FieldId := Int

/-- Raw bytes (`[]byte`). -/
abbrev Bytes := List Nat

/-- Modelled from the spec: the opaque record `protocol.MessageHeader` (name, kind,
sequence id), whose declaration is not among the embedded sources. -/
structure MessageHeader where
  MessageName : String
  MessageType : Nat
  SeqId : Int
  deriving DecidableEq, Repr

/-- Modelled from the spec: the error kinds of section 7. -/
inductive DecodeError where
  | UnexpectedEndOfInput
  | InvalidTypeTag
  | MalformedLength
  deriving DecidableEq, Repr

end protocol

open protocol

namespace spi

/-- Outcome of one iterator call: the value it returned, or the failure that ended it. -/
inductive Outcome (α : Type) where
  | ok (a : α)
  | fail (e : DecodeError)
  deriving DecidableEq, Repr

/-- The part of the interface `spi.Iterator` used by the decoders, over a cursor state `σ`.
Each operation gives its outcome together with the cursor state after the call. -/
structure Iterator (σ : Type) where
  ReadMessageHeader : σ → Outcome MessageHeader × σ
  ReadStructHeader : σ → Outcome Unit × σ
  ReadStructField : σ → Outcome (TType × FieldId) × σ
  Skip : TType → Bytes → σ → Outcome Bytes × σ

/-- How a decoder call ended: it returned, an iterator call failed inside it, or the
loop was still running when the fuel ran out. -/
inductive Completion where
  | returned
  | failed (e : DecodeError)
  | running
  deriving DecidableEq, Repr

/-- One cursor operation as seen from outside: the call, its arguments and its outcome. -/
inductive Call where
  | ReadMessageHeader (r : Outcome MessageHeader)
  | ReadStructHeader (r : Outcome Unit)
  | ReadStructField (r : Outcome (TType × FieldId))
  | Skip (ttype : TType) (space : Bytes) (r : Outcome Bytes)
  deriving DecidableEq, Repr

/-- The iterator `it` with a log: every operation behaves as in `it` and appends its call
to the log carried next to the cursor state. -/
def traced {σ : Type} (it : Iterator σ) : Iterator (σ × List Call) where
  ReadMessageHeader := fun s =>
    ((it.ReadMessageHeader s.1).1,
      ((it.ReadMessageHeader s.1).2, s.2 ++ [Call.ReadMessageHeader (it.ReadMessageHeader s.1).1]))
  ReadStructHeader := fun s =>
    ((it.ReadStructHeader s.1).1,
      ((it.ReadStructHeader s.1).2, s.2 ++ [Call.ReadStructHeader (it.ReadStructHeader s.1).1]))
  ReadStructField := fun s =>
    ((it.ReadStructField s.1).1,
      ((it.ReadStructField s.1).2, s.2 ++ [Call.ReadStructField (it.ReadStructField s.1).1]))
  Skip := fun ttype space s =>
    ((it.Skip ttype space s.1).1,
      ((it.Skip ttype space s.1).2, s.2 ++ [Call.Skip ttype space (it.Skip ttype space s.1).1]))

end spi

open spi

namespace raw

/-- The record `StructField` of package raw: a type tag (field `Type` in the source, a reserved
word here) and the raw bytes of the value. -/
structure StructField where
  Type_ : TType
  Buffer : Bytes
  deriving DecidableEq, Repr

/-- The map type `Struct` of package raw: `map[protocol.FieldId]StructField`. -/
abbrev Struct := Finmap (fun _ : FieldId => StructField)

/-- The `for` loop of `rawStructDecoder.Decode` (decode_struct.go, lines 14-24).
`fields` is the local map, `val` the content of the target. -/
def rawStructDecoder.loop {σ : Type} (iter : Iterator σ) :
    Nat → Struct → Struct → σ → Completion × Struct × σ
  | 0, _, val, s => (Completion.running, val, s)
  | fuel + 1, fields, val, s =>
    match iter.ReadStructField s with
    | (Outcome.fail e, s1) => (Completion.failed e, val, s1)
    | (Outcome.ok (fieldType, fieldId), s1) =>
      if fieldType = TType.TypeStop then
        (Completion.returned, fields, s1)
      else
        match iter.Skip fieldType [] s1 with
        | (Outcome.fail e, s2) => (Completion.failed e, val, s2)
        | (Outcome.ok buffer, s2) =>
          rawStructDecoder.loop iter fuel
            (fields.insert fieldId { Type_ := fieldType, Buffer := buffer }) val s2

/-- The method `rawStructDecoder.Decode` (decode_struct.go, lines 11-25): given the content
`val` of the target and the cursor state, the way the call ended, the content of the target
afterwards and the cursor state afterwards. -/
def rawStructDecoder.Decode {σ : Type} (iter : Iterator σ) (fuel : Nat) (val : Struct) (s : σ) :
    Completion × Struct × σ :=
  match iter.ReadStructHeader s with
  | (Outcome.fail e, s1) => (Completion.failed e, val, s1)
  | (Outcome.ok (), s1) => rawStructDecoder.loop iter fuel ∅ val s1

end raw

namespace general

/-- Modelled from the spec: the type `Struct` of package general, declared outside the
embedded sources; the spec gives the arguments of a message as a RawStruct. -/
abbrev Struct := raw.Struct

/-- The record `Message` of package general. -/
structure Message where
  MessageHeader : protocol.MessageHeader
  Arguments : Struct

/-- Modelled from the spec: the helper `readStruct` of package general, which is not among
the embedded sources.  The spec (4.4) has the envelope decoder invoke the Raw Struct Decoder
once for the trailing arguments struct, so `readStruct` reads one struct as the Raw Struct
Decoder of 4.3 does and returns the accumulated mapping. -/
def readStruct {σ : Type} (iter : Iterator σ) (fuel : Nat) (s : σ) :
    Completion × Struct × σ :=
  raw.rawStructDecoder.Decode iter fuel ∅ s

/-- The method `messageDecoder.Decode` (decode_message.go, lines 11-16).  The operands of the
composite literal are evaluated in source order: the header is read first, then the struct;
the target is assigned after both calls returned. -/
def messageDecoder.Decode {σ : Type} (iter : Iterator σ) (fuel : Nat) (val : Message) (s : σ) :
    Completion × Message × σ :=
  match iter.ReadMessageHeader s with
  | (Outcome.fail e, s1) => (Completion.failed e, val, s1)
  | (Outcome.ok header, s1) =>
    match readStruct iter fuel s1 with
    | (Completion.returned, arguments, s2) =>
      (Completion.returned, { MessageHeader := header, Arguments := arguments }, s2)
    | (c, _, s2) => (c, val, s2)

/-- The method `messageHeaderDecoder.Decode` (decode_message.go, lines 21-23). -/
def messageHeaderDecoder.Decode {σ : Type} (iter : Iterator σ) (val : MessageHeader) (s : σ) :
    Completion × MessageHeader × σ :=
  match iter.ReadMessageHeader s with
  | (Outcome.fail e, s1) => (Completion.failed e, val, s1)
  | (Outcome.ok header, s1) => (Completion.returned, header, s1)

end general

/-! ## Describing what an iterator does on a struct -/

namespace spi

/-- A field as an iterator presents it: the header `(ttype, id)` returned by
`ReadStructField` and the span `buffer` returned by `Skip` for its value. -/
structure WireField where
  ttype : TType
  id : FieldId
  buffer : Bytes
  deriving DecidableEq, Repr

/-- From cursor state `s` the iterator yields the non-stop fields `fs` one after the other
(each header read returns `(ttype, id)` with a tag other than stop, the `Skip` called next with
that tag and no space returns `buffer`) and is then in state `s2`. -/
def Yields {σ : Type} (iter : Iterator σ) : List WireField → σ → σ → Prop
  | [], s, s2 => s2 = s
  | f :: rest, s, s2 =>
    f.ttype ≠ TType.TypeStop ∧
    (iter.ReadStructField s).1 = Outcome.ok (f.ttype, f.id) ∧
    (iter.Skip f.ttype [] (iter.ReadStructField s).2).1 = Outcome.ok f.buffer ∧
    Yields iter rest (iter.Skip f.ttype [] (iter.ReadStructField s).2).2 s2

/-- Whether an iterator yields given fields between two given cursor states can be checked
by running it. -/
instance Yields.decidable {σ : Type} [DecidableEq σ] (iter : Iterator σ) :
    ∀ (fs : List WireField) (s s2 : σ), Decidable (Yields iter fs s s2)
  | [], s, s2 => inferInstanceAs (Decidable (s2 = s))
  | f :: rest, s, s2 =>
    have := Yields.decidable iter rest (iter.Skip f.ttype [] (iter.ReadStructField s).2).2 s2
    inferInstanceAs (Decidable (f.ttype ≠ TType.TypeStop ∧
      (iter.ReadStructField s).1 = Outcome.ok (f.ttype, f.id) ∧
      (iter.Skip f.ttype [] (iter.ReadStructField s).2).1 = Outcome.ok f.buffer ∧
      Yields iter rest (iter.Skip f.ttype [] (iter.ReadStructField s).2).2 s2))

/-- The calls an iterator sees while it yields the fields `fs`: for each field the header
read, then the skip of its value. -/
def fieldCalls : List WireField → List Call
  | [] => []
  | f :: rest =>
    Call.ReadStructField (Outcome.ok (f.ttype, f.id)) ::
      Call.Skip f.ttype [] (Outcome.ok f.buffer) :: fieldCalls rest

/-- The failure an iterator call ended with, if it did not return. -/
def Outcome.failure {α : Type} : Outcome α → Option DecodeError
  | Outcome.ok _ => none
  | Outcome.fail e => some e

/-- The failure a logged call ended with, if it did not return. -/
def Call.failure : Call → Option DecodeError
  | Call.ReadMessageHeader r => r.failure
  | Call.ReadStructHeader r => r.failure
  | Call.ReadStructField r => r.failure
  | Call.Skip _ _ r => r.failure

/-- In cursor state `s` the next field cannot be read: the read of its header fails with `e`,
or the header is read (with a tag other than stop) and the skip of its value fails with `e`. -/
def FailsNext {σ : Type} (iter : Iterator σ) (s : σ) (e : DecodeError) : Prop :=
  (iter.ReadStructField s).1 = Outcome.fail e ∨
  ∃ (t : TType) (id : FieldId), (iter.ReadStructField s).1 = Outcome.ok (t, id) ∧
    t ≠ TType.TypeStop ∧ (iter.Skip t [] (iter.ReadStructField s).2).1 = Outcome.fail e

/-- The calls an iterator sees when, in cursor state `s`, the decoder reads a field header and,
if a header is returned, skips the value with the tag of that header. -/
def nextCalls {σ : Type} (iter : Iterator σ) (s : σ) : List Call :=
  match (iter.ReadStructField s).1 with
  | Outcome.fail e => [Call.ReadStructField (Outcome.fail e)]
  | Outcome.ok (t, id) =>
    [Call.ReadStructField (Outcome.ok (t, id)),
     Call.Skip t [] (iter.Skip t [] (iter.ReadStructField s).2).1]

/-- Whether a logged call is a `Skip`. -/
def Call.isSkip : Call → Bool
  | Call.Skip _ _ _ => true
  | _ => false

/-- Whether a logged call is a `ReadStructField` that returned the stop tag. -/
def Call.isStopRead : Call → Bool
  | Call.ReadStructField (Outcome.ok (t, _)) => decide (t = TType.TypeStop)
  | _ => false

/-- Whether a logged call is one on which the decoder is to end: it failed, or it is a
`ReadStructField` that returned the stop tag. -/
def Call.isTerminal (c : Call) : Bool :=
  c.failure.isSome || c.isStopRead

/-- A token of a scripted input: a field header, the bytes of a value, a message header. -/
inductive Token where
  | header (t : TType) (id : FieldId)
  | value (b : Bytes)
  | message (h : MessageHeader)
  deriving DecidableEq, Repr

/-- A small concrete iterator over a list of tokens, used to exercise the decoders: every read
takes the next token, fails with `UnexpectedEndOfInput` when none is left and with
`InvalidTypeTag` when the next token is of another kind; there is no struct header. -/
def scripted : Iterator (List Token) where
  ReadMessageHeader := fun s =>
    match s with
    | Token.message h :: rest => (Outcome.ok h, rest)
    | [] => (Outcome.fail DecodeError.UnexpectedEndOfInput, [])
    | _ :: rest => (Outcome.fail DecodeError.InvalidTypeTag, rest)
  ReadStructHeader := fun s => (Outcome.ok (), s)
  ReadStructField := fun s =>
    match s with
    | Token.header t id :: rest => (Outcome.ok (t, id), rest)
    | [] => (Outcome.fail DecodeError.UnexpectedEndOfInput, [])
    | _ :: rest => (Outcome.fail DecodeError.InvalidTypeTag, rest)
  Skip := fun _ space s =>
    match s with
    | Token.value b :: rest => (Outcome.ok (space ++ b), rest)
    | [] => (Outcome.fail DecodeError.UnexpectedEndOfInput, [])
    | _ :: rest => (Outcome.fail DecodeError.InvalidTypeTag, rest)

/-- Sample input: field 1 (i32), field 2 (string), field 1 again, the stop header, and one
token that belongs to whatever follows the struct. -/
def repeatedInput : List Token :=
  [Token.header TType.TypeI32 1, Token.value [0, 0, 0, 42],
   Token.header TType.TypeString 2, Token.value [0, 0, 0, 2, 104, 105],
   Token.header TType.TypeI32 1, Token.value [0, 0, 0, 7],
   Token.header TType.TypeStop 0, Token.value [9]]

/-- The fields of `repeatedInput`. -/
def repeatedFields : List WireField :=
  [{ ttype := TType.TypeI32, id := 1, buffer := [0, 0, 0, 42] },
   { ttype := TType.TypeString, id := 2, buffer := [0, 0, 0, 2, 104, 105] },
   { ttype := TType.TypeI32, id := 1, buffer := [0, 0, 0, 7] }]

/-- Sample input cut off in the middle of its second field: the header of field 2 is there,
its value is not. -/
def truncatedInput : List Token :=
  [Token.header TType.TypeI32 1, Token.value [0, 0, 0, 42],
   Token.header TType.TypeString 2]

/-- The complete fields of `truncatedInput`. -/
def truncatedFields : List WireField :=
  [{ ttype := TType.TypeI32, id := 1, buffer := [0, 0, 0, 42] }]

/-- The scenario of the spec: field 1 is the i32 42, field 2 the string "hi", then the stop
header, here carrying the id 3. -/
def scenarioInput : List Token :=
  [Token.header TType.TypeI32 1, Token.value [0, 0, 0, 42],
   Token.header TType.TypeString 2, Token.value [0, 0, 0, 2, 104, 105],
   Token.header TType.TypeStop 3]

/-- A sample message header. -/
def sampleHeader : MessageHeader :=
  { MessageName := "ping", MessageType := 1, SeqId := 17 }

/-- A sample message: the header, then the struct of the scenario. -/
def messageInput : List Token :=
  Token.message sampleHeader :: scenarioInput

/-- A sample message cut off in the middle of the first field of its struct. -/
def truncatedMessage : List Token :=
  [Token.message sampleHeader, Token.header TType.TypeI32 1]

/-- A second concrete iterator, with another kind of cursor state: the input is a fixed list
of tokens and the cursor state is the position of the next token.  Reading past the end
fails with `UnexpectedEndOfInput`, a token of another kind with `InvalidTypeTag`. -/
def positional (input : List Token) : Iterator Nat where
  ReadMessageHeader := fun pos =>
    match input.get? pos with
    | some (Token.message h) => (Outcome.ok h, pos + 1)
    | none => (Outcome.fail DecodeError.UnexpectedEndOfInput, pos)
    | some _ => (Outcome.fail DecodeError.InvalidTypeTag, pos + 1)
  ReadStructHeader := fun pos => (Outcome.ok (), pos)
  ReadStructField := fun pos =>
    match input.get? pos with
    | some (Token.header t id) => (Outcome.ok (t, id), pos + 1)
    | none => (Outcome.fail DecodeError.UnexpectedEndOfInput, pos)
    | some _ => (Outcome.fail DecodeError.InvalidTypeTag, pos + 1)
  Skip := fun _ space pos =>
    match input.get? pos with
    | some (Token.value b) => (Outcome.ok (space ++ b), pos + 1)
    | none => (Outcome.fail DecodeError.UnexpectedEndOfInput, pos)
    | some _ => (Outcome.fail DecodeError.InvalidTypeTag, pos + 1)

/-- The fields of the scenario. -/
def scenarioFields : List WireField :=
  [{ ttype := TType.TypeI32, id := 1, buffer := [0, 0, 0, 42] },
   { ttype := TType.TypeString, id := 2, buffer := [0, 0, 0, 2, 104, 105] }]

/-- The scenario with its two fields in the other order. -/
def swappedInput : List Token :=
  [Token.header TType.TypeString 2, Token.value [0, 0, 0, 2, 104, 105],
   Token.header TType.TypeI32 1, Token.value [0, 0, 0, 42],
   Token.header TType.TypeStop 0]

/-- The fields of `swappedInput`. -/
def swappedFields : List WireField :=
  [{ ttype := TType.TypeString, id := 2, buffer := [0, 0, 0, 2, 104, 105] },
   { ttype := TType.TypeI32, id := 1, buffer := [0, 0, 0, 42] }]

/-- An input that never ends: the same field header and value, again and again.  The cursor
state of `endless` is irrelevant. -/
def endless : Iterator Unit where
  ReadMessageHeader := fun s => (Outcome.fail DecodeError.InvalidTypeTag, s)
  ReadStructHeader := fun s => (Outcome.ok (), s)
  ReadStructField := fun s => (Outcome.ok (TType.TypeBool, 5), s)
  Skip := fun _ space s => (Outcome.ok (space ++ [1]), s)

end spi

namespace raw

/-- The map obtained from `fields` by the assignments `fields[id] = StructField{...}` for
the wire fields `fs`, in order. -/
def stored (fields : Struct) (fs : List WireField) : Struct :=
  fs.foldl (fun m f => m.insert f.id { Type_ := f.ttype, Buffer := f.buffer }) fields

/-- Sample content of a target before a decoder call: one entry under field id 7. -/
def previous : Struct :=
  Finmap.singleton 7 { Type_ := TType.TypeBool, Buffer := [1] }

end raw

namespace general

/-- Sample content of a message target before a decoder call. -/
def previousMessage : Message :=
  { MessageHeader := { MessageName := "old", MessageType := 2, SeqId := 3 },
    Arguments := raw.previous }

end general

namespace spi

/-- The zero value of `protocol.MessageHeader`. -/
def zeroHeader : MessageHeader :=
  { MessageName := "", MessageType := 0, SeqId := 0 }

/-- The iterator `it` behind a reader that reports a failure the way a Go reader with an
error field does: a call of `it` that fails is turned into a call that returns; the failure
is recorded in an error field kept next to the cursor state (the first failure stays), and
the call returns the zero value of its result type: the zero header, the tag with code 0
(the stop tag) with field id 0, no bytes. -/
def recorded {σ : Type} (it : Iterator σ) : Iterator (σ × Option DecodeError) where
  ReadMessageHeader := fun s =>
    match it.ReadMessageHeader s.1 with
    | (Outcome.ok h, s1) => (Outcome.ok h, (s1, s.2))
    | (Outcome.fail e, s1) => (Outcome.ok zeroHeader, (s1, s.2.orElse (fun _ => some e)))
  ReadStructHeader := fun s =>
    match it.ReadStructHeader s.1 with
    | (Outcome.ok u, s1) => (Outcome.ok u, (s1, s.2))
    | (Outcome.fail e, s1) => (Outcome.ok (), (s1, s.2.orElse (fun _ => some e)))
  ReadStructField := fun s =>
    match it.ReadStructField s.1 with
    | (Outcome.ok p, s1) => (Outcome.ok p, (s1, s.2))
    | (Outcome.fail e, s1) =>
      (Outcome.ok (TType.TypeStop, 0), (s1, s.2.orElse (fun _ => some e)))
  Skip := fun ttype space s =>
    match it.Skip ttype space s.1 with
    | (Outcome.ok b, s1) => (Outcome.ok b, (s1, s.2))
    | (Outcome.fail e, s1) => (Outcome.ok [], (s1, s.2.orElse (fun _ => some e)))

/-- Sample input with a field whose value is missing: after the header of field 1 comes the
header of field 2, then field 3 with its value, then the stop header. -/
def garbledInput : List Token :=
  [Token.header TType.TypeI32 1, Token.header TType.TypeString 2,
   Token.header TType.TypeBool 3, Token.value [1], Token.header TType.TypeStop 0]

/-- Sample message whose header cannot be read: a value token stands where the message
header is expected; the struct that follows is well formed. -/
def badHeaderMessage : List Token :=
  [Token.value [9], Token.header TType.TypeI32 1, Token.value [0, 0, 0, 42],
   Token.header TType.TypeStop 0]

end spi

/-! ## Lemmas on the loop -/

namespace raw

theorem stored_nil (fields : Struct) : stored fields [] = fields := rfl

theorem stored_cons (fields : Struct) (f : WireField) (fs : List WireField) :
    stored fields (f :: fs) =
      stored (fields.insert f.id { Type_ := f.ttype, Buffer := f.buffer }) fs := rfl

theorem loop_yields {σ : Type} (iter : Iterator σ) (fs : List WireField) :
    ∀ (k : Nat) (fields val : Struct) (s s2 : σ), Yields iter fs s s2 →
      rawStructDecoder.loop iter (fs.length + k) fields val s =
        rawStructDecoder.loop iter k (stored fields fs) val s2 := by
  induction fs with
  | nil =>
    intro k fields val s s2 h
    simp only [Yields] at h
    subst h
    simp [stored_nil]
  | cons f rest ih =>
    intro k fields val s s2 h
    obtain ⟨hne, hread, hskip, hrest⟩ := h
    have e1 : iter.ReadStructField s =
        (Outcome.ok (f.ttype, f.id), (iter.ReadStructField s).2) := Prod.ext hread rfl
    have e2 : iter.Skip f.ttype [] (iter.ReadStructField s).2 =
        (Outcome.ok f.buffer, (iter.Skip f.ttype [] (iter.ReadStructField s).2).2) :=
      Prod.ext hskip rfl
    have hlen : (f :: rest).length + k = (rest.length + k) + 1 := by
      simp only [List.length_cons]; omega
    rw [hlen, rawStructDecoder.loop, e1]
    simp only [if_neg hne]
    rw [e2]
    simp only []
    rw [ih k _ val _ s2 hrest, stored_cons]

theorem loop_stop {σ : Type} (iter : Iterator σ) (k : Nat) (fields val : Struct) (s : σ)
    (stopId : FieldId)
    (h : (iter.ReadStructField s).1 = Outcome.ok (TType.TypeStop, stopId)) :
    rawStructDecoder.loop iter (k + 1) fields val s =
      (Completion.returned, fields, (iter.ReadStructField s).2) := by
  have e1 : iter.ReadStructField s =
      (Outcome.ok (TType.TypeStop, stopId), (iter.ReadStructField s).2) := Prod.ext h rfl
  rw [rawStructDecoder.loop, e1]
  simp

theorem Decode_yields {σ : Type} (iter : Iterator σ) (fs : List WireField) (fuel : Nat)
    (val : Struct) (s s2 : σ) (stopId : FieldId)
    (hh : (iter.ReadStructHeader s).1 = Outcome.ok ())
    (hy : Yields iter fs (iter.ReadStructHeader s).2 s2)
    (hs : (iter.ReadStructField s2).1 = Outcome.ok (TType.TypeStop, stopId))
    (hfuel : fs.length < fuel) :
    rawStructDecoder.Decode iter fuel val s =
      (Completion.returned, stored ∅ fs, (iter.ReadStructField s2).2) := by
  have e0 : iter.ReadStructHeader s = (Outcome.ok (), (iter.ReadStructHeader s).2) :=
    Prod.ext hh rfl
  obtain ⟨k, rfl⟩ : ∃ k, fuel = fs.length + (k + 1) := ⟨fuel - fs.length - 1, by omega⟩
  rw [rawStructDecoder.Decode, e0]
  simp only []
  rw [loop_yields iter fs (k + 1) ∅ val _ s2 hy, loop_stop iter k _ val s2 stopId hs]

theorem lookup_stored_of_not_mem (fs : List WireField) :
    ∀ (fields : Struct) (i : FieldId), i ∉ fs.map WireField.id →
      (stored fields fs).lookup i = fields.lookup i := by
  induction fs with
  | nil => intro fields i _; rfl
  | cons f rest ih =>
    intro fields i hi
    simp only [List.map_cons, List.mem_cons, not_or] at hi
    rw [stored_cons, ih _ i hi.2, Finmap.lookup_insert_of_ne _ hi.1]

theorem lookup_stored_last (fs : List WireField) :
    ∀ (fields : Struct) (k : Nat) (hk : k < fs.length),
      (∀ (j : Nat) (hj : j < fs.length), k < j → fs[j].id ≠ fs[k].id) →
      (stored fields fs).lookup fs[k].id =
        some { Type_ := fs[k].ttype, Buffer := fs[k].buffer } := by
  induction fs with
  | nil => intro fields k hk; simp at hk
  | cons f rest ih =>
    intro fields k hk hlast
    cases k with
    | zero =>
      have hnot : f.id ∉ rest.map WireField.id := by
        intro hmem
        obtain ⟨g, hg, hgid⟩ := List.mem_map.mp hmem
        obtain ⟨j, hj, rfl⟩ := List.getElem_of_mem hg
        exact hlast (j + 1) (by simpa using hj) (Nat.succ_pos j) (by simpa using hgid)
      simp only [List.getElem_cons_zero]
      rw [stored_cons, lookup_stored_of_not_mem rest _ _ hnot, Finmap.lookup_insert]
    | succ k =>
      have hk2 : k < rest.length := by simpa using hk
      simp only [List.getElem_cons_succ]
      rw [stored_cons]
      apply ih _ k hk2
      intro j hj hkj
      have := hlast (j + 1) (by simpa using hj) (by omega)
      simpa using this

theorem keys_stored (fs : List WireField) :
    ∀ (fields : Struct), (stored fields fs).keys = fields.keys ∪ (fs.map WireField.id).toFinset := by
  induction fs with
  | nil => intro fields; simp [stored_nil]
  | cons f rest ih =>
    intro fields
    rw [stored_cons, ih]
    ext i
    simp only [Finset.mem_union, Finmap.mem_keys, Finmap.mem_insert, List.map_cons,
      List.toFinset_cons, Finset.mem_insert]
    tauto

end raw

/-! ## The raw struct decoder on a well-formed struct -/

namespace raw

/-- C1: when, after the struct header, the iterator yields the non-stop fields `fs` (headers
`(ttype, id)`, skip results `buffer`) and then a stop header, `rawStructDecoder.Decode` returns
and stores in the target a map whose key set is exactly the set of the ids of `fs` and which
maps the id of the field at index `k` to `StructField{ttype_k, buffer_k}` whenever no later
field carries the same id (last write wins). -/
theorem Decode_last_write_wins {σ : Type} (iter : Iterator σ) (fs : List WireField)
    (fuel : Nat) (val : Struct) (s s2 : σ) (stopId : FieldId)
    (hh : (iter.ReadStructHeader s).1 = Outcome.ok ())
    (hy : Yields iter fs (iter.ReadStructHeader s).2 s2)
    (hs : (iter.ReadStructField s2).1 = Outcome.ok (TType.TypeStop, stopId))
    (hfuel : fs.length < fuel) :
    (rawStructDecoder.Decode iter fuel val s).1 = Completion.returned ∧
    (rawStructDecoder.Decode iter fuel val s).2.1.keys = (fs.map WireField.id).toFinset ∧
    ∀ (k : Nat) (hk : k < fs.length),
      (∀ (j : Nat) (hj : j < fs.length), k < j → fs[j].id ≠ fs[k].id) →
      (rawStructDecoder.Decode iter fuel val s).2.1.lookup fs[k].id =
        some { Type_ := fs[k].ttype, Buffer := fs[k].buffer } := by
  rw [Decode_yields iter fs fuel val s s2 stopId hh hy hs hfuel]
  refine ⟨rfl, ?_, ?_⟩
  · simp [keys_stored]
  · intro k hk hlast
    exact lookup_stored_last fs ∅ k hk hlast

/-- Witness for C1 on the sample input with a repeated field id. -/
theorem Decode_last_write_wins_witness :
    (rawStructDecoder.Decode scripted 4 ∅ repeatedInput).1 = Completion.returned ∧
    (rawStructDecoder.Decode scripted 4 ∅ repeatedInput).2.1.keys =
      (repeatedFields.map WireField.id).toFinset ∧
    ∀ (k : Nat) (hk : k < repeatedFields.length),
      (∀ (j : Nat) (hj : j < repeatedFields.length), k < j →
        repeatedFields[j].id ≠ repeatedFields[k].id) →
      (rawStructDecoder.Decode scripted 4 ∅ repeatedInput).2.1.lookup repeatedFields[k].id =
        some { Type_ := repeatedFields[k].ttype, Buffer := repeatedFields[k].buffer } :=
  Decode_last_write_wins scripted repeatedFields 4 ∅ repeatedInput
    [Token.header TType.TypeStop 0, Token.value [9]] 0
    (by decide) (by decide) (by decide) (by decide)

/-- C2: on a well-formed struct the number of entries of the map stored by
`rawStructDecoder.Decode` is the number of distinct field ids among the headers before the
stop marker; it is at most the number of those headers, and equal to it exactly when no field
id repeats. -/
theorem Decode_entry_count {σ : Type} (iter : Iterator σ) (fs : List WireField)
    (fuel : Nat) (val : Struct) (s s2 : σ) (stopId : FieldId)
    (hh : (iter.ReadStructHeader s).1 = Outcome.ok ())
    (hy : Yields iter fs (iter.ReadStructHeader s).2 s2)
    (hs : (iter.ReadStructField s2).1 = Outcome.ok (TType.TypeStop, stopId))
    (hfuel : fs.length < fuel) :
    (rawStructDecoder.Decode iter fuel val s).2.1.keys.card =
      (fs.map WireField.id).dedup.length ∧
    (rawStructDecoder.Decode iter fuel val s).2.1.keys.card ≤ fs.length ∧
    ((rawStructDecoder.Decode iter fuel val s).2.1.keys.card = fs.length ↔
      (fs.map WireField.id).Nodup) := by
  rw [Decode_yields iter fs fuel val s s2 stopId hh hy hs hfuel]
  have hkeys : (stored ∅ fs).keys = (fs.map WireField.id).toFinset := by simp [keys_stored]
  have hcard : (stored ∅ fs).keys.card = (fs.map WireField.id).dedup.length := by
    rw [hkeys, List.card_toFinset]
  have hlen : (fs.map WireField.id).length = fs.length := List.length_map _ _
  refine ⟨hcard, ?_, ?_⟩
  · rw [hcard, ← hlen]
    exact (List.dedup_sublist _).length_le
  · rw [hcard, ← hlen]
    constructor
    · intro h
      have := (List.dedup_sublist (fs.map WireField.id)).eq_of_length h
      rw [← this]
      exact List.nodup_dedup _
    · intro h
      rw [h.dedup]

/-- Witness for C2 on the sample input: three headers, two distinct ids. -/
theorem Decode_entry_count_witness :
    (rawStructDecoder.Decode scripted 4 ∅ repeatedInput).2.1.keys.card =
      (repeatedFields.map WireField.id).dedup.length ∧
    (rawStructDecoder.Decode scripted 4 ∅ repeatedInput).2.1.keys.card ≤
      repeatedFields.length ∧
    ((rawStructDecoder.Decode scripted 4 ∅ repeatedInput).2.1.keys.card =
      repeatedFields.length ↔ (repeatedFields.map WireField.id).Nodup) :=
  Decode_entry_count scripted repeatedFields 4 ∅ repeatedInput
    [Token.header TType.TypeStop 0, Token.value [9]] 0
    (by decide) (by decide) (by decide) (by decide)

theorem loop_fails {σ : Type} (iter : Iterator σ) (k : Nat) (fields val : Struct) (s : σ)
    (e : DecodeError) (h : FailsNext iter s e) :
    (rawStructDecoder.loop iter (k + 1) fields val s).1 = Completion.failed e ∧
    (rawStructDecoder.loop iter (k + 1) fields val s).2.1 = val := by
  rcases h with h | ⟨t, id, h1, hne, h2⟩
  · have e1 : iter.ReadStructField s = (Outcome.fail e, (iter.ReadStructField s).2) :=
      Prod.ext h rfl
    rw [rawStructDecoder.loop, e1]
    exact ⟨rfl, rfl⟩
  · have e1 : iter.ReadStructField s = (Outcome.ok (t, id), (iter.ReadStructField s).2) :=
      Prod.ext h1 rfl
    have e2 : iter.Skip t [] (iter.ReadStructField s).2 =
        (Outcome.fail e, (iter.Skip t [] (iter.ReadStructField s).2).2) := Prod.ext h2 rfl
    rw [rawStructDecoder.loop, e1]
    simp only [if_neg hne]
    rw [e2]
    exact ⟨rfl, rfl⟩

end raw
/-! ## The log of a traced run -/

namespace raw

theorem traced_yields {σ : Type} (iter : Iterator σ) (fs : List WireField) :
    ∀ (s s2 : σ) (log : List Call), Yields iter fs s s2 →
      Yields (traced iter) fs (s, log) (s2, log ++ fieldCalls fs) := by
  induction fs with
  | nil =>
    intro s s2 log h
    simp only [Yields] at h
    subst h
    simp [Yields, fieldCalls]
  | cons f rest ih =>
    intro s s2 log h
    obtain ⟨hne, hread, hskip, hrest⟩ := h
    refine ⟨hne, hread, hskip, ?_⟩
    have := ih _ s2 (log ++ [Call.ReadStructField (Outcome.ok (f.ttype, f.id)),
      Call.Skip f.ttype [] (Outcome.ok f.buffer)]) hrest
    simpa [traced, fieldCalls, hread, hskip] using this

theorem yields_ne_stop {σ : Type} (iter : Iterator σ) (fs : List WireField) :
    ∀ (s s2 : σ), Yields iter fs s s2 → ∀ f ∈ fs, f.ttype ≠ TType.TypeStop := by
  induction fs with
  | nil => intro s s2 _ f hf; simp at hf
  | cons g rest ih =>
    intro s s2 h f hf
    obtain ⟨hne, _, _, hrest⟩ := h
    rcases List.mem_cons.mp hf with rfl | hf
    · exact hne
    · exact ih _ s2 hrest f hf

theorem fieldCalls_no_stop (fs : List WireField) (h : ∀ f ∈ fs, f.ttype ≠ TType.TypeStop) :
    ∀ c ∈ fieldCalls fs, ∀ (i : FieldId),
      c ≠ Call.ReadStructField (Outcome.ok (TType.TypeStop, i)) := by
  induction fs with
  | nil => intro c hc; simp [fieldCalls] at hc
  | cons f rest ih =>
    intro c hc i
    simp only [fieldCalls, List.mem_cons] at hc
    rcases hc with rfl | rfl | hc
    · intro heq
      injection heq with heq
      injection heq with heq
      injection heq with h1 _
      exact h f (List.mem_cons_self _ _) h1
    · intro heq; cases heq
    · exact ih (fun g hg => h g (List.mem_cons_of_mem _ hg)) c hc i

theorem Decode_traced_yields {σ : Type} (iter : Iterator σ) (fs : List WireField) (fuel : Nat)
    (val : Struct) (s s2 : σ) (stopId : FieldId) (log : List Call)
    (hh : (iter.ReadStructHeader s).1 = Outcome.ok ())
    (hy : Yields iter fs (iter.ReadStructHeader s).2 s2)
    (hs : (iter.ReadStructField s2).1 = Outcome.ok (TType.TypeStop, stopId))
    (hfuel : fs.length < fuel) :
    rawStructDecoder.Decode (traced iter) fuel val (s, log) =
      (Completion.returned, stored ∅ fs, ((iter.ReadStructField s2).2,
        log ++ Call.ReadStructHeader (Outcome.ok ()) ::
          (fieldCalls fs ++ [Call.ReadStructField (Outcome.ok (TType.TypeStop, stopId))]))) := by
  have hy2 := traced_yields iter fs _ s2 (log ++ [Call.ReadStructHeader (Outcome.ok ())]) hy
  have := Decode_yields (traced iter) fs fuel val (s, log)
    (s2, (log ++ [Call.ReadStructHeader (Outcome.ok ())]) ++ fieldCalls fs) stopId hh
    (by simpa [traced, hh] using hy2) hs hfuel
  rw [this]
  simp [traced, hs]

/-- C3: on a well-formed struct `rawStructDecoder.Decode` returns with the cursor in exactly
the state left by the `ReadStructField` call that returned the stop marker; that call is the
last cursor operation of the run, and no earlier call of the run returned a stop marker. -/
theorem Decode_consumes_exactly {σ : Type} (iter : Iterator σ) (fs : List WireField)
    (fuel : Nat) (val : Struct) (s s2 : σ) (stopId : FieldId)
    (hh : (iter.ReadStructHeader s).1 = Outcome.ok ())
    (hy : Yields iter fs (iter.ReadStructHeader s).2 s2)
    (hs : (iter.ReadStructField s2).1 = Outcome.ok (TType.TypeStop, stopId))
    (hfuel : fs.length < fuel) :
    (rawStructDecoder.Decode iter fuel val s).1 = Completion.returned ∧
    (rawStructDecoder.Decode iter fuel val s).2.2 = (iter.ReadStructField s2).2 ∧
    ∃ pre : List Call,
      (rawStructDecoder.Decode (traced iter) fuel val (s, [])).2.2.2 =
        pre ++ [Call.ReadStructField (Outcome.ok (TType.TypeStop, stopId))] ∧
      ∀ c ∈ pre, ∀ (i : FieldId), c ≠ Call.ReadStructField (Outcome.ok (TType.TypeStop, i)) := by
  rw [Decode_yields iter fs fuel val s s2 stopId hh hy hs hfuel,
    Decode_traced_yields iter fs fuel val s s2 stopId [] hh hy hs hfuel]
  refine ⟨rfl, rfl, Call.ReadStructHeader (Outcome.ok ()) :: fieldCalls fs, by simp, ?_⟩
  intro c hc i
  rcases List.mem_cons.mp hc with rfl | hc
  · intro heq; cases heq
  · exact fieldCalls_no_stop fs (yields_ne_stop iter fs _ s2 hy) c hc i

/-- Witness for C3: on the sample input the token after the stop header is left unread. -/
theorem Decode_consumes_exactly_witness :
    (rawStructDecoder.Decode scripted 4 ∅ repeatedInput).1 = Completion.returned ∧
    (rawStructDecoder.Decode scripted 4 ∅ repeatedInput).2.2 =
      (scripted.ReadStructField [Token.header TType.TypeStop 0, Token.value [9]]).2 ∧
    ∃ pre : List Call,
      (rawStructDecoder.Decode (traced scripted) 4 ∅ (repeatedInput, [])).2.2.2 =
        pre ++ [Call.ReadStructField (Outcome.ok (TType.TypeStop, 0))] ∧
      ∀ c ∈ pre, ∀ (i : FieldId), c ≠ Call.ReadStructField (Outcome.ok (TType.TypeStop, i)) :=
  Decode_consumes_exactly scripted repeatedFields 4 ∅ repeatedInput
    [Token.header TType.TypeStop 0, Token.value [9]] 0
    (by decide) (by decide) (by decide) (by decide)

end raw

/-! ## Failures end the run -/

namespace raw

theorem traced_loop_sim {σ : Type} (iter : Iterator σ) :
    ∀ (fuel : Nat) (fields val : Struct) (s : σ) (log : List Call),
      (rawStructDecoder.loop (traced iter) fuel fields val (s, log)).1 =
        (rawStructDecoder.loop iter fuel fields val s).1 ∧
      (rawStructDecoder.loop (traced iter) fuel fields val (s, log)).2.1 =
        (rawStructDecoder.loop iter fuel fields val s).2.1 ∧
      (rawStructDecoder.loop (traced iter) fuel fields val (s, log)).2.2.1 =
        (rawStructDecoder.loop iter fuel fields val s).2.2 := by
  intro fuel
  induction fuel with
  | zero => intro fields val s log; exact ⟨rfl, rfl, rfl⟩
  | succ n ih =>
    intro fields val s log
    rw [rawStructDecoder.loop, rawStructDecoder.loop]
    simp only [traced]
    rcases h1 : iter.ReadStructField s with ⟨r, s1⟩
    cases r with
    | fail e => exact ⟨rfl, rfl, rfl⟩
    | ok p =>
      obtain ⟨t, id⟩ := p
      simp only []
      by_cases ht : t = TType.TypeStop
      · subst ht
        simp
      · simp only [if_neg ht]
        rcases h2 : iter.Skip t [] s1 with ⟨r2, s2⟩
        cases r2 with
        | fail e => exact ⟨rfl, rfl, rfl⟩
        | ok b => exact ih _ val s2 _

theorem traced_Decode_sim {σ : Type} (iter : Iterator σ) (fuel : Nat) (val : Struct) (s : σ)
    (log : List Call) :
    (rawStructDecoder.Decode (traced iter) fuel val (s, log)).1 =
      (rawStructDecoder.Decode iter fuel val s).1 ∧
    (rawStructDecoder.Decode (traced iter) fuel val (s, log)).2.1 =
      (rawStructDecoder.Decode iter fuel val s).2.1 ∧
    (rawStructDecoder.Decode (traced iter) fuel val (s, log)).2.2.1 =
      (rawStructDecoder.Decode iter fuel val s).2.2 := by
  rw [rawStructDecoder.Decode, rawStructDecoder.Decode]
  simp only [traced]
  rcases h1 : iter.ReadStructHeader s with ⟨r, s1⟩
  cases r with
  | fail e => exact ⟨rfl, rfl, rfl⟩
  | ok u => exact traced_loop_sim iter fuel ∅ val s1 _

theorem failure_is_last (l : List Call) (x c : Call) (pre post : List Call) (e : DecodeError)
    (hl : ∀ d ∈ l, d.failure = none) (hc : c.failure = some e)
    (h : l ++ [x] = pre ++ c :: post) : post = [] ∧ c = x := by
  rcases List.append_eq_append_iff.mp h with ⟨a, _, ha⟩ | ⟨b, hb, hb2⟩
  · cases a with
    | nil =>
      simp only [List.nil_append, List.cons.injEq] at ha
      exact ⟨ha.2.symm, ha.1.symm⟩
    | cons y ys =>
      have := congrArg List.length ha
      simp at this
  · cases b with
    | nil =>
      simp only [List.nil_append, List.cons.injEq] at hb2
      exact ⟨hb2.2, hb2.1⟩
    | cons y ys =>
      simp only [List.cons_append, List.cons.injEq] at hb2
      have hmem : c ∈ l := by rw [hb, ← hb2.1]; simp
      rw [hl c hmem] at hc
      cases hc

theorem no_failure_in (l : List Call) (c : Call) (pre post : List Call) (e : DecodeError)
    (hl : ∀ d ∈ l, d.failure = none) (hc : c.failure = some e) : l ≠ pre ++ c :: post := by
  intro h
  have hmem : c ∈ l := by rw [h]; simp
  rw [hl c hmem] at hc
  cases hc

theorem loop_traced_failure {σ : Type} (iter : Iterator σ) :
    ∀ (fuel : Nat) (fields val : Struct) (s : σ) (log : List Call),
      (∀ d ∈ log, d.failure = none) →
      ∀ (pre post : List Call) (c : Call) (e : DecodeError),
        (rawStructDecoder.loop (traced iter) fuel fields val (s, log)).2.2.2 = pre ++ c :: post →
        c.failure = some e →
        post = [] ∧
        (rawStructDecoder.loop (traced iter) fuel fields val (s, log)).1 = Completion.failed e := by
  intro fuel
  induction fuel with
  | zero =>
    intro fields val s log hlog pre post c e htr hc
    exact absurd htr (no_failure_in log c pre post e hlog hc)
  | succ n ih =>
    intro fields val s log hlog pre post c e
    rw [rawStructDecoder.loop]
    simp only [traced]
    rcases h1 : iter.ReadStructField s with ⟨r, s1⟩
    cases r with
    | fail e1 =>
      intro htr hc
      simp only [] at htr
      obtain ⟨hp, rfl⟩ := failure_is_last log _ c pre post e hlog hc htr
      simp only [Call.failure, Outcome.failure, Option.some.injEq] at hc
      subst hc
      exact ⟨hp, rfl⟩
    | ok p =>
      obtain ⟨t, id⟩ := p
      simp only []
      have hlog1 : ∀ d ∈ log ++ [Call.ReadStructField (Outcome.ok (t, id))],
          d.failure = none := by
        intro d hd
        rcases List.mem_append.mp hd with hd | hd
        · exact hlog d hd
        · simp only [List.mem_singleton] at hd
          subst hd; rfl
      by_cases ht : t = TType.TypeStop
      · simp only [if_pos ht]
        intro htr hc
        exact absurd htr (no_failure_in _ c pre post e hlog1 hc)
      · simp only [if_neg ht]
        rcases h2 : iter.Skip t [] s1 with ⟨r2, s2⟩
        cases r2 with
        | fail e2 =>
          intro htr hc
          simp only [] at htr
          obtain ⟨hp, rfl⟩ := failure_is_last _ _ c pre post e hlog1 hc htr
          simp only [Call.failure, Outcome.failure, Option.some.injEq] at hc
          subst hc
          exact ⟨hp, rfl⟩
        | ok b =>
          simp only []
          apply ih
          intro d hd
          rcases List.mem_append.mp hd with hd | hd
          · exact hlog1 d hd
          · simp only [List.mem_singleton] at hd
            subst hd; rfl

/-- C5 (amended): in every run of `rawStructDecoder.Decode`, a cursor operation that fails by
not returning (the read of the struct header, the read of a field header, or a skip) is the
last cursor operation of the run: no field header is read and no field is skipped after it,
and the decoder call ends with that failure.  A failure that the iterator only records,
returning a value, is not covered: the decoder consults no error state. -/
theorem Decode_stops_at_failure {σ : Type} (iter : Iterator σ) (fuel : Nat) (val : Struct)
    (s : σ) (pre post : List Call) (c : Call) (e : DecodeError)
    (htrace : (rawStructDecoder.Decode (traced iter) fuel val (s, [])).2.2.2 = pre ++ c :: post)
    (hfail : c.failure = some e) :
    post = [] ∧ (rawStructDecoder.Decode iter fuel val s).1 = Completion.failed e := by
  rw [← (traced_Decode_sim iter fuel val s []).1]
  revert htrace
  rw [rawStructDecoder.Decode]
  simp only [traced]
  rcases h1 : iter.ReadStructHeader s with ⟨r, s1⟩
  cases r with
  | fail e1 =>
    intro htr
    simp only [] at htr
    obtain ⟨hp, rfl⟩ := failure_is_last [] _ c pre post e (by simp) hfail htr
    simp only [Call.failure, Outcome.failure, Option.some.injEq] at hfail
    subst hfail
    exact ⟨hp, rfl⟩
  | ok u =>
    simp only []
    intro htr
    refine loop_traced_failure iter fuel ∅ val s1 _ ?_ pre post c e htr hfail
    intro d hd
    simp only [List.nil_append, List.mem_singleton] at hd
    subst hd; rfl

/-- Witness for C5 (amended): on the input cut off in its second field the skip that does not
return is the third and last cursor operation after the struct header. -/
theorem Decode_stops_at_failure_witness :
    ([] : List Call) = [] ∧
    (rawStructDecoder.Decode scripted 7 previous truncatedInput).1 =
      Completion.failed DecodeError.UnexpectedEndOfInput :=
  Decode_stops_at_failure scripted 7 previous truncatedInput
    [Call.ReadStructHeader (Outcome.ok ()),
     Call.ReadStructField (Outcome.ok (TType.TypeI32, 1)),
     Call.Skip TType.TypeI32 [] (Outcome.ok [0, 0, 0, 42]),
     Call.ReadStructField (Outcome.ok (TType.TypeString, 2))]
    []
    (Call.Skip TType.TypeString [] (Outcome.fail DecodeError.UnexpectedEndOfInput))
    DecodeError.UnexpectedEndOfInput
    (by decide) (by decide)

end raw

/-! ## The scenario of the spec and the invariant of the entries -/

namespace raw

/-- C6: when the iterator yields the header (I32, 1) with skip result `b1`, the header
(String, 2) with skip result `b2` and then the stop header, `rawStructDecoder.Decode` stores a
map with exactly the two entries 1 -> {I32, b1} and 2 -> {String, b2}; there is no entry for
field id 3, and none for the id carried by the stop header (an id other than 1 and 2). -/
theorem Decode_scenario {σ : Type} (iter : Iterator σ) (fuel : Nat) (val : Struct)
    (s s2 : σ) (stopId : FieldId) (b1 b2 : Bytes)
    (hh : (iter.ReadStructHeader s).1 = Outcome.ok ())
    (hy : Yields iter
      [{ ttype := TType.TypeI32, id := 1, buffer := b1 },
       { ttype := TType.TypeString, id := 2, buffer := b2 }] (iter.ReadStructHeader s).2 s2)
    (hs : (iter.ReadStructField s2).1 = Outcome.ok (TType.TypeStop, stopId))
    (hfuel : 2 < fuel) :
    (rawStructDecoder.Decode iter fuel val s).1 = Completion.returned ∧
    (rawStructDecoder.Decode iter fuel val s).2.1.keys = {1, 2} ∧
    (rawStructDecoder.Decode iter fuel val s).2.1.keys.card = 2 ∧
    (rawStructDecoder.Decode iter fuel val s).2.1.lookup 1 =
      some { Type_ := TType.TypeI32, Buffer := b1 } ∧
    (rawStructDecoder.Decode iter fuel val s).2.1.lookup 2 =
      some { Type_ := TType.TypeString, Buffer := b2 } ∧
    (rawStructDecoder.Decode iter fuel val s).2.1.lookup 3 = none ∧
    (stopId ≠ 1 → stopId ≠ 2 → (rawStructDecoder.Decode iter fuel val s).2.1.lookup stopId = none) := by
  rw [Decode_yields iter _ fuel val s s2 stopId hh hy hs (by simpa using hfuel)]
  have hkeys : (stored ∅ [({ ttype := TType.TypeI32, id := 1, buffer := b1 } : WireField),
      { ttype := TType.TypeString, id := 2, buffer := b2 }]).keys = {1, 2} := by
    rw [keys_stored]; simp
  refine ⟨rfl, hkeys, ?_, ?_, ?_, ?_, ?_⟩
  · rw [hkeys]; rfl
  · simp only [stored, List.foldl]
    rw [Finmap.lookup_insert_of_ne _ (by decide), Finmap.lookup_insert]
  · simp only [stored, List.foldl]
    rw [Finmap.lookup_insert]
  · rw [lookup_stored_of_not_mem _ _ _ (by simp)]; rfl
  · intro h1 h2
    rw [lookup_stored_of_not_mem _ _ _ (by simp [h1, h2])]; rfl

/-- Witness for C6: the scenario input on the scripted iterator. -/
theorem Decode_scenario_witness :
    (rawStructDecoder.Decode scripted 3 ∅ scenarioInput).1 = Completion.returned ∧
    (rawStructDecoder.Decode scripted 3 ∅ scenarioInput).2.1.keys = {1, 2} ∧
    (rawStructDecoder.Decode scripted 3 ∅ scenarioInput).2.1.keys.card = 2 ∧
    (rawStructDecoder.Decode scripted 3 ∅ scenarioInput).2.1.lookup 1 =
      some { Type_ := TType.TypeI32, Buffer := [0, 0, 0, 42] } ∧
    (rawStructDecoder.Decode scripted 3 ∅ scenarioInput).2.1.lookup 2 =
      some { Type_ := TType.TypeString, Buffer := [0, 0, 0, 2, 104, 105] } ∧
    (rawStructDecoder.Decode scripted 3 ∅ scenarioInput).2.1.lookup 3 = none ∧
    ((3 : FieldId) ≠ 1 → (3 : FieldId) ≠ 2 →
      (rawStructDecoder.Decode scripted 3 ∅ scenarioInput).2.1.lookup 3 = none) :=
  Decode_scenario scripted 3 ∅ scenarioInput [Token.header TType.TypeStop 3] 3
    [0, 0, 0, 42] [0, 0, 0, 2, 104, 105] (by decide) (by decide) (by decide) (by decide)

end raw

/-! ## The message envelope decoder -/

namespace general

theorem messageDecoder_Decode_ok {σ : Type} (iter : Iterator σ) (fuel : Nat) (val : Message)
    (s : σ) (h : MessageHeader) (arguments : Struct) (s2 : σ)
    (hm : (iter.ReadMessageHeader s).1 = Outcome.ok h)
    (hr : readStruct iter fuel (iter.ReadMessageHeader s).2 =
      (Completion.returned, arguments, s2)) :
    messageDecoder.Decode iter fuel val s =
      (Completion.returned, { MessageHeader := h, Arguments := arguments }, s2) := by
  have e1 : iter.ReadMessageHeader s = (Outcome.ok h, (iter.ReadMessageHeader s).2) :=
    Prod.ext hm rfl
  rw [messageDecoder.Decode, e1]
  simp only []
  rw [hr]

/-- C8: when the iterator returns the message header `h` and then presents a well-formed
struct (struct header, fields `fs`, stop header), `messageDecoder.Decode` returns and assigns
to the target the message made of `h`, as returned, and of the map the raw struct decoder
produces for the struct that follows the header.  The cursor operations of the run are: one
`ReadMessageHeader`, first, then those of the decoding of one struct. -/
theorem messageDecoder_Decode_header_then_struct {σ : Type} (iter : Iterator σ)
    (fs : List WireField) (fuel : Nat) (val : Message) (val0 : Struct) (s s2 : σ)
    (stopId : FieldId) (h : MessageHeader)
    (hm : (iter.ReadMessageHeader s).1 = Outcome.ok h)
    (hh : (iter.ReadStructHeader (iter.ReadMessageHeader s).2).1 = Outcome.ok ())
    (hy : Yields iter fs (iter.ReadStructHeader (iter.ReadMessageHeader s).2).2 s2)
    (hs : (iter.ReadStructField s2).1 = Outcome.ok (TType.TypeStop, stopId))
    (hfuel : fs.length < fuel) :
    (messageDecoder.Decode iter fuel val s).1 = Completion.returned ∧
    (messageDecoder.Decode iter fuel val s).2.1.MessageHeader = h ∧
    (messageDecoder.Decode iter fuel val s).2.1.Arguments =
      (raw.rawStructDecoder.Decode iter fuel val0 (iter.ReadMessageHeader s).2).2.1 ∧
    (messageDecoder.Decode iter fuel val s).2.2 = (iter.ReadStructField s2).2 ∧
    (messageDecoder.Decode (traced iter) fuel val (s, [])).2.2.2 =
      Call.ReadMessageHeader (Outcome.ok h) :: Call.ReadStructHeader (Outcome.ok ()) ::
        (fieldCalls fs ++ [Call.ReadStructField (Outcome.ok (TType.TypeStop, stopId))]) := by
  have h1 := messageDecoder_Decode_ok iter fuel val s h _ _ hm
    (raw.Decode_yields iter fs fuel ∅ _ s2 stopId hh hy hs hfuel)
  have h2 := messageDecoder_Decode_ok (traced iter) fuel val (s, []) h _ _ hm
    (raw.Decode_traced_yields iter fs fuel ∅ _ s2 stopId
      [Call.ReadMessageHeader (iter.ReadMessageHeader s).1] hh hy hs hfuel)
  rw [h1, h2, raw.Decode_yields iter fs fuel val0 _ s2 stopId hh hy hs hfuel]
  refine ⟨rfl, rfl, rfl, rfl, ?_⟩
  simp [hm]

/-- Witness for C8: the sample message on the scripted iterator. -/
theorem messageDecoder_Decode_header_then_struct_witness :
    (messageDecoder.Decode scripted 3 previousMessage messageInput).1 = Completion.returned ∧
    (messageDecoder.Decode scripted 3 previousMessage messageInput).2.1.MessageHeader =
      sampleHeader ∧
    (messageDecoder.Decode scripted 3 previousMessage messageInput).2.1.Arguments =
      (raw.rawStructDecoder.Decode scripted 3 raw.previous
        (scripted.ReadMessageHeader messageInput).2).2.1 ∧
    (messageDecoder.Decode scripted 3 previousMessage messageInput).2.2 =
      (scripted.ReadStructField [Token.header TType.TypeStop 3]).2 ∧
    (messageDecoder.Decode (traced scripted) 3 previousMessage (messageInput, [])).2.2.2 =
      Call.ReadMessageHeader (Outcome.ok sampleHeader) ::
        Call.ReadStructHeader (Outcome.ok ()) ::
        (fieldCalls
          [{ ttype := TType.TypeI32, id := 1, buffer := [0, 0, 0, 42] },
           { ttype := TType.TypeString, id := 2, buffer := [0, 0, 0, 2, 104, 105] }] ++
          [Call.ReadStructField (Outcome.ok (TType.TypeStop, 3))]) :=
  messageDecoder_Decode_header_then_struct scripted
    [{ ttype := TType.TypeI32, id := 1, buffer := [0, 0, 0, 42] },
     { ttype := TType.TypeString, id := 2, buffer := [0, 0, 0, 2, 104, 105] }]
    3 previousMessage raw.previous messageInput [Token.header TType.TypeStop 3] 3 sampleHeader
    (by decide) (by decide) (by decide) (by decide) (by decide)

/-- C9 (amended): `messageDecoder.Decode` fails whenever the read of the message header, or
the decoding of the struct that follows, fails by not returning, and the target then still
holds what it held before the call; after a header read that did not return no further
cursor operation is made (no struct is decoded).  Nothing is tested between the two calls:
whenever the header read returns a header and the struct decoding returns, the message made
of that header and that struct is assigned, whatever the iterator recorded. -/
theorem messageDecoder_Decode_failure {σ : Type} (iter : Iterator σ) (fuel : Nat)
    (val : Message) (s : σ) :
    (∀ e : DecodeError, (iter.ReadMessageHeader s).1 = Outcome.fail e →
      (messageDecoder.Decode iter fuel val s).1 = Completion.failed e ∧
      (messageDecoder.Decode iter fuel val s).2.1 = val ∧
      (messageDecoder.Decode (traced iter) fuel val (s, [])).2.2.2 =
        [Call.ReadMessageHeader (Outcome.fail e)]) ∧
    (∀ (h : MessageHeader) (e : DecodeError), (iter.ReadMessageHeader s).1 = Outcome.ok h →
      (readStruct iter fuel (iter.ReadMessageHeader s).2).1 = Completion.failed e →
      (messageDecoder.Decode iter fuel val s).1 = Completion.failed e ∧
      (messageDecoder.Decode iter fuel val s).2.1 = val) ∧
    (∀ h : MessageHeader, (iter.ReadMessageHeader s).1 = Outcome.ok h →
      (readStruct iter fuel (iter.ReadMessageHeader s).2).1 = Completion.returned →
      (messageDecoder.Decode iter fuel val s).1 = Completion.returned ∧
      (messageDecoder.Decode iter fuel val s).2.1.MessageHeader = h ∧
      (messageDecoder.Decode iter fuel val s).2.1.Arguments =
        (readStruct iter fuel (iter.ReadMessageHeader s).2).2.1) := by
  refine ⟨?_, ?_, ?_⟩
  · intro e hf
    have e1 : iter.ReadMessageHeader s = (Outcome.fail e, (iter.ReadMessageHeader s).2) :=
      Prod.ext hf rfl
    refine ⟨?_, ?_, ?_⟩
    · rw [messageDecoder.Decode, e1]
    · rw [messageDecoder.Decode, e1]
    · rw [messageDecoder.Decode]
      simp [traced, hf]
  · intro h e hm hr
    have e1 : iter.ReadMessageHeader s = (Outcome.ok h, (iter.ReadMessageHeader s).2) :=
      Prod.ext hm rfl
    rw [messageDecoder.Decode, e1]
    simp only []
    rcases h3 : readStruct iter fuel (iter.ReadMessageHeader s).2 with ⟨c, a, s3⟩
    rw [h3] at hr
    simp only [] at hr
    subst hr
    exact ⟨rfl, rfl⟩
  · intro h hm hr
    rcases h3 : readStruct iter fuel (iter.ReadMessageHeader s).2 with ⟨c, a, s3⟩
    rw [h3] at hr
    simp only [] at hr
    subst hr
    rw [messageDecoder_Decode_ok iter fuel val s h a s3 hm h3]
    exact ⟨rfl, rfl, rfl⟩

/-- Witness for C9 (amended): on an empty input the header read does not return, the run
fails, the target is as before and the header read is the only call; on the message cut off
in the first field of its struct the header is read, the struct decoding does not return,
the run fails and the target is as before. -/
theorem messageDecoder_Decode_failure_witness :
    ((messageDecoder.Decode scripted 3 previousMessage []).1 =
        Completion.failed DecodeError.UnexpectedEndOfInput ∧
      (messageDecoder.Decode scripted 3 previousMessage []).2.1 = previousMessage ∧
      (messageDecoder.Decode (traced scripted) 3 previousMessage ([], [])).2.2.2 =
        [Call.ReadMessageHeader (Outcome.fail DecodeError.UnexpectedEndOfInput)]) ∧
    ((messageDecoder.Decode scripted 3 previousMessage truncatedMessage).1 =
        Completion.failed DecodeError.UnexpectedEndOfInput ∧
      (messageDecoder.Decode scripted 3 previousMessage truncatedMessage).2.1 =
        previousMessage) :=
  ⟨(messageDecoder_Decode_failure scripted 3 previousMessage []).1
      DecodeError.UnexpectedEndOfInput (by decide),
    (messageDecoder_Decode_failure scripted 3 previousMessage truncatedMessage).2.1
      sampleHeader DecodeError.UnexpectedEndOfInput (by decide) (by decide)⟩

/-- C9, as stated, fails: on the message whose header cannot be read, read through an
iterator that records the failure and returns, the header read fails on the cursor (first
call of the log of the cursor, failure recorded in the error field), and after it the struct
is decoded; the run returns, and the target is assigned the zero header with the struct
next to it. -/
theorem messageDecoder_Decode_failure_counterexample :
    (messageDecoder.Decode (recorded (traced scripted)) 2 previousMessage
        ((badHeaderMessage, []), none)).2.2.1.2 =
      [Call.ReadMessageHeader (Outcome.fail DecodeError.InvalidTypeTag),
       Call.ReadStructHeader (Outcome.ok ()),
       Call.ReadStructField (Outcome.ok (TType.TypeI32, 1)),
       Call.Skip TType.TypeI32 [] (Outcome.ok [0, 0, 0, 42]),
       Call.ReadStructField (Outcome.ok (TType.TypeStop, 0))] ∧
    (messageDecoder.Decode (recorded (traced scripted)) 2 previousMessage
        ((badHeaderMessage, []), none)).2.2.2 = some DecodeError.InvalidTypeTag ∧
    (messageDecoder.Decode (recorded (traced scripted)) 2 previousMessage
        ((badHeaderMessage, []), none)).1 = Completion.returned ∧
    (messageDecoder.Decode (recorded (traced scripted)) 2 previousMessage
        ((badHeaderMessage, []), none)).2.1.MessageHeader = zeroHeader ∧
    (messageDecoder.Decode (recorded (traced scripted)) 2 previousMessage
        ((badHeaderMessage, []), none)).2.1.MessageHeader ≠ previousMessage.MessageHeader ∧
    (messageDecoder.Decode (recorded (traced scripted)) 2 previousMessage
        ((badHeaderMessage, []), none)).2.1.Arguments.lookup 1 =
      some { Type_ := TType.TypeI32, Buffer := [0, 0, 0, 42] } := by
  decide

/-- C10: `messageHeaderDecoder.Decode` performs exactly one cursor operation, a
`ReadMessageHeader`, and leaves the cursor where that call left it; when the call returns a
header the target holds exactly that header afterwards. -/
theorem messageHeaderDecoder_Decode_reads_once {σ : Type} (iter : Iterator σ)
    (val : MessageHeader) (s : σ) :
    (messageHeaderDecoder.Decode (traced iter) val (s, [])).2.2 =
      ((iter.ReadMessageHeader s).2, [Call.ReadMessageHeader (iter.ReadMessageHeader s).1]) ∧
    (messageHeaderDecoder.Decode iter val s).2.2 = (iter.ReadMessageHeader s).2 ∧
    ∀ h : MessageHeader, (iter.ReadMessageHeader s).1 = Outcome.ok h →
      (messageHeaderDecoder.Decode iter val s).1 = Completion.returned ∧
      (messageHeaderDecoder.Decode iter val s).2.1 = h := by
  unfold messageHeaderDecoder.Decode
  simp only [traced]
  rcases h1 : iter.ReadMessageHeader s with ⟨r, s1⟩
  cases r with
  | fail e =>
    refine ⟨rfl, rfl, ?_⟩
    intro h hh
    cases hh
  | ok h0 =>
    refine ⟨rfl, rfl, ?_⟩
    intro h hh
    simp only [Outcome.ok.injEq] at hh
    subst hh
    exact ⟨rfl, rfl⟩

/-- Witness for C10: the sample message; the struct after the header is left unread. -/
theorem messageHeaderDecoder_Decode_reads_once_witness :
    (messageHeaderDecoder.Decode (traced scripted) previousMessage.MessageHeader
      (messageInput, [])).2.2 = (scenarioInput, [Call.ReadMessageHeader (Outcome.ok sampleHeader)]) ∧
    (messageHeaderDecoder.Decode scripted previousMessage.MessageHeader messageInput).1 =
      Completion.returned ∧
    (messageHeaderDecoder.Decode scripted previousMessage.MessageHeader messageInput).2.1 =
      sampleHeader :=
  ⟨(messageHeaderDecoder_Decode_reads_once scripted previousMessage.MessageHeader
      messageInput).1,
    (messageHeaderDecoder_Decode_reads_once scripted previousMessage.MessageHeader
      messageInput).2.2 sampleHeader (by decide)⟩

end general

/-! ## The shape of every run -/

namespace raw

theorem fieldCalls_append (fs gs : List WireField) :
    fieldCalls (fs ++ gs) = fieldCalls fs ++ fieldCalls gs := by
  induction fs with
  | nil => rfl
  | cons f rest ih => simp [fieldCalls, ih]

/-- Every run of the loop on the logging iterator has one of three shapes: after some fields
`fs` the fuel is used up, or the stop header is read, or the next field cannot be read. -/
theorem loop_traced_shape {σ : Type} (iter : Iterator σ) :
    ∀ (fuel : Nat) (fields val : Struct) (s : σ) (log : List Call),
      ∃ (fs : List WireField) (s2 : σ), Yields iter fs s s2 ∧
        ((fs.length = fuel ∧
            rawStructDecoder.loop (traced iter) fuel fields val (s, log) =
              (Completion.running, val, (s2, log ++ fieldCalls fs))) ∨
         (fs.length < fuel ∧ ∃ stopId : FieldId,
            (iter.ReadStructField s2).1 = Outcome.ok (TType.TypeStop, stopId) ∧
            rawStructDecoder.loop (traced iter) fuel fields val (s, log) =
              (Completion.returned, stored fields fs, ((iter.ReadStructField s2).2,
                log ++ fieldCalls fs ++
                  [Call.ReadStructField (Outcome.ok (TType.TypeStop, stopId))]))) ∨
         (fs.length < fuel ∧ ∃ e : DecodeError, FailsNext iter s2 e ∧
            (rawStructDecoder.loop (traced iter) fuel fields val (s, log)).1 =
              Completion.failed e ∧
            (rawStructDecoder.loop (traced iter) fuel fields val (s, log)).2.1 = val ∧
            (rawStructDecoder.loop (traced iter) fuel fields val (s, log)).2.2.2 =
              log ++ fieldCalls fs ++ nextCalls iter s2)) := by
  intro fuel
  induction fuel with
  | zero =>
    intro fields val s log
    exact ⟨[], s, rfl, Or.inl ⟨rfl, by simp [rawStructDecoder.loop, fieldCalls]⟩⟩
  | succ n ih =>
    intro fields val s log
    rcases h1 : iter.ReadStructField s with ⟨r, s1⟩
    cases r with
    | fail e =>
      refine ⟨[], s, rfl, Or.inr (Or.inr ⟨Nat.succ_pos n, e, Or.inl (by rw [h1]), ?_⟩)⟩
      rw [rawStructDecoder.loop]
      simp [traced, h1, fieldCalls, nextCalls]
    | ok p =>
      obtain ⟨t, id⟩ := p
      by_cases ht : t = TType.TypeStop
      · subst ht
        refine ⟨[], s, rfl, Or.inr (Or.inl ⟨Nat.succ_pos n, id, by rw [h1], ?_⟩)⟩
        rw [rawStructDecoder.loop]
        simp [traced, h1, fieldCalls, stored_nil]
      · rcases h2 : iter.Skip t [] s1 with ⟨r2, s3⟩
        cases r2 with
        | fail e =>
          refine ⟨[], s, rfl, Or.inr (Or.inr ⟨Nat.succ_pos n, e,
            Or.inr ⟨t, id, by rw [h1], ht, by rw [h1, h2]⟩, ?_⟩)⟩
          rw [rawStructDecoder.loop]
          simp [traced, h1, h2, ht, fieldCalls, nextCalls]
        | ok b =>
          obtain ⟨fs, s2, hy, hshape⟩ := ih
            (fields.insert id { Type_ := t, Buffer := b }) val s3
            (log ++ [Call.ReadStructField (Outcome.ok (t, id))] ++
              [Call.Skip t [] (Outcome.ok b)])
          have hstep : rawStructDecoder.loop (traced iter) (n + 1) fields val (s, log) =
              rawStructDecoder.loop (traced iter) n
                (fields.insert id { Type_ := t, Buffer := b }) val
                (s3, log ++ [Call.ReadStructField (Outcome.ok (t, id))] ++
                  [Call.Skip t [] (Outcome.ok b)]) := by
            rw [rawStructDecoder.loop]
            simp [traced, h1, h2, ht]
          refine ⟨{ ttype := t, id := id, buffer := b } :: fs, s2,
            ⟨ht, by rw [h1], by rw [h1, h2], by rw [h1, h2]; exact hy⟩, ?_⟩
          rw [hstep]
          rcases hshape with ⟨hl, hrun⟩ | ⟨hl, stopId, hstop, hrun⟩ | ⟨hl, e, hf, hc, hv, hlog⟩
          · exact Or.inl ⟨by simp [hl], by rw [hrun]; simp [fieldCalls]⟩
          · exact Or.inr (Or.inl ⟨by simp; omega, stopId, hstop,
              by rw [hrun]; simp [fieldCalls, stored_cons]⟩)
          · exact Or.inr (Or.inr ⟨by simp; omega, e, hf, hc, hv,
              by rw [hlog]; simp [fieldCalls]⟩)

end raw

namespace raw

/-- Every run of `rawStructDecoder.Decode` on the logging iterator: the read of the struct
header fails, or it returns and the loop runs in one of its three shapes. -/
theorem Decode_traced_shape {σ : Type} (iter : Iterator σ) (fuel : Nat) (val : Struct) (s : σ) :
    (∃ e : DecodeError, (iter.ReadStructHeader s).1 = Outcome.fail e ∧
      rawStructDecoder.Decode (traced iter) fuel val (s, []) =
        (Completion.failed e, val, ((iter.ReadStructHeader s).2,
          [Call.ReadStructHeader (Outcome.fail e)]))) ∨
    ((iter.ReadStructHeader s).1 = Outcome.ok () ∧
      ∃ (fs : List WireField) (s2 : σ), Yields iter fs (iter.ReadStructHeader s).2 s2 ∧
        ((fs.length = fuel ∧
            rawStructDecoder.Decode (traced iter) fuel val (s, []) =
              (Completion.running, val,
                (s2, Call.ReadStructHeader (Outcome.ok ()) :: fieldCalls fs))) ∨
         (fs.length < fuel ∧ ∃ stopId : FieldId,
            (iter.ReadStructField s2).1 = Outcome.ok (TType.TypeStop, stopId) ∧
            rawStructDecoder.Decode (traced iter) fuel val (s, []) =
              (Completion.returned, stored ∅ fs, ((iter.ReadStructField s2).2,
                Call.ReadStructHeader (Outcome.ok ()) :: (fieldCalls fs ++
                  [Call.ReadStructField (Outcome.ok (TType.TypeStop, stopId))])))) ∨
         (fs.length < fuel ∧ ∃ e : DecodeError, FailsNext iter s2 e ∧
            (rawStructDecoder.Decode (traced iter) fuel val (s, [])).1 =
              Completion.failed e ∧
            (rawStructDecoder.Decode (traced iter) fuel val (s, [])).2.1 = val ∧
            (rawStructDecoder.Decode (traced iter) fuel val (s, [])).2.2.2 =
              Call.ReadStructHeader (Outcome.ok ()) ::
                (fieldCalls fs ++ nextCalls iter s2)))) := by
  rcases h0 : iter.ReadStructHeader s with ⟨r, s1⟩
  cases r with
  | fail e =>
    refine Or.inl ⟨e, rfl, ?_⟩
    rw [rawStructDecoder.Decode]
    simp [traced, h0]
  | ok u =>
    refine Or.inr ⟨rfl, ?_⟩
    have hstep : rawStructDecoder.Decode (traced iter) fuel val (s, []) =
        rawStructDecoder.loop (traced iter) fuel ∅ val
          (s1, [Call.ReadStructHeader (Outcome.ok ())]) := by
      rw [rawStructDecoder.Decode]
      simp [traced, h0]
    obtain ⟨fs, s2, hy, hshape⟩ :=
      loop_traced_shape iter fuel ∅ val s1 [Call.ReadStructHeader (Outcome.ok ())]
    refine ⟨fs, s2, hy, ?_⟩
    rw [hstep]
    rcases hshape with ⟨hl, hrun⟩ | ⟨hl, stopId, hstop, hrun⟩ | ⟨hl, e, hf, hc, hv, hlog⟩
    · exact Or.inl ⟨hl, by rw [hrun]; simp⟩
    · exact Or.inr (Or.inl ⟨hl, stopId, hstop, by rw [hrun]; simp⟩)
    · exact Or.inr (Or.inr ⟨hl, e, hf, hc, hv, by rw [hlog]; simp⟩)

theorem fieldCalls_length (fs : List WireField) : (fieldCalls fs).length = 2 * fs.length := by
  induction fs with
  | nil => rfl
  | cons f rest ih => simp only [fieldCalls, List.length_cons, ih]; omega

theorem fieldCalls_skips (fs : List WireField) :
    ((fieldCalls fs).filter Call.isSkip).length = fs.length := by
  induction fs with
  | nil => rfl
  | cons f rest ih => simp [fieldCalls, Call.isSkip, List.filter, ih]

theorem fieldCalls_getElem? (fs : List WireField) :
    ∀ (k : Nat) (hk : k < fs.length),
      (fieldCalls fs)[2 * k]? =
        some (Call.ReadStructField (Outcome.ok (fs[k].ttype, fs[k].id))) ∧
      (fieldCalls fs)[2 * k + 1]? =
        some (Call.Skip fs[k].ttype [] (Outcome.ok fs[k].buffer)) := by
  induction fs with
  | nil => intro k hk; simp at hk
  | cons f rest ih =>
    intro k hk
    cases k with
    | zero => simp [fieldCalls]
    | succ k =>
      have hk2 : k < rest.length := by simpa using hk
      have h2 : 2 * (k + 1) = (2 * k + 1) + 1 := by omega
      have h3 : 2 * (k + 1) + 1 = ((2 * k + 1) + 1) + 1 := by omega
      obtain ⟨ha, hb⟩ := ih k hk2
      refine ⟨?_, ?_⟩
      · rw [h2]
        simpa [fieldCalls] using ha
      · rw [h3]
        simpa [fieldCalls] using hb

/-- C11: on a struct with the `n` non-stop fields `fs` followed by the stop header, the
cursor operations of `rawStructDecoder.Decode` are, in this order: one `ReadStructHeader`;
for the k-th field a `ReadStructField` (at position 1 + 2k of the log) followed at once by
the `Skip` with the tag that read returned (position 2 + 2k); one last `ReadStructField`,
which returns stop.  The log has 2n + 2 calls, n of which are `Skip` calls. -/
theorem Decode_call_order {σ : Type} (iter : Iterator σ) (fs : List WireField)
    (fuel : Nat) (val : Struct) (s s2 : σ) (stopId : FieldId)
    (hh : (iter.ReadStructHeader s).1 = Outcome.ok ())
    (hy : Yields iter fs (iter.ReadStructHeader s).2 s2)
    (hs : (iter.ReadStructField s2).1 = Outcome.ok (TType.TypeStop, stopId))
    (hfuel : fs.length < fuel) :
    (rawStructDecoder.Decode (traced iter) fuel val (s, [])).2.2.2 =
      Call.ReadStructHeader (Outcome.ok ()) ::
        (fieldCalls fs ++ [Call.ReadStructField (Outcome.ok (TType.TypeStop, stopId))]) ∧
    (rawStructDecoder.Decode (traced iter) fuel val (s, [])).2.2.2.length =
      2 * fs.length + 2 ∧
    (rawStructDecoder.Decode (traced iter) fuel val (s, [])).2.2.2[0]? =
      some (Call.ReadStructHeader (Outcome.ok ())) ∧
    (∀ (k : Nat) (hk : k < fs.length),
      (rawStructDecoder.Decode (traced iter) fuel val (s, [])).2.2.2[1 + 2 * k]? =
        some (Call.ReadStructField (Outcome.ok (fs[k].ttype, fs[k].id))) ∧
      (rawStructDecoder.Decode (traced iter) fuel val (s, [])).2.2.2[2 + 2 * k]? =
        some (Call.Skip fs[k].ttype [] (Outcome.ok fs[k].buffer))) ∧
    (rawStructDecoder.Decode (traced iter) fuel val (s, [])).2.2.2[2 * fs.length + 1]? =
      some (Call.ReadStructField (Outcome.ok (TType.TypeStop, stopId))) ∧
    ((rawStructDecoder.Decode (traced iter) fuel val (s, [])).2.2.2.filter
      Call.isSkip).length = fs.length := by
  rw [Decode_traced_yields iter fs fuel val s s2 stopId [] hh hy hs hfuel]
  refine ⟨by simp, ?_, by simp, ?_, ?_, ?_⟩ <;> simp only [List.nil_append]
  · simp [fieldCalls_length]
  · intro k hk
    obtain ⟨ha, hb⟩ := fieldCalls_getElem? fs k hk
    have hlen := fieldCalls_length fs
    have e1 : 1 + 2 * k = 2 * k + 1 := by omega
    have e2 : 2 + 2 * k = (2 * k + 1) + 1 := by omega
    refine ⟨?_, ?_⟩
    · rw [e1, List.getElem?_cons_succ, List.getElem?_append_left (by omega)]
      exact ha
    · rw [e2, List.getElem?_cons_succ, List.getElem?_append_left (by omega)]
      exact hb
  · rw [List.getElem?_cons_succ, List.getElem?_append_right (by simp [fieldCalls_length])]
    simp [fieldCalls_length]
  · simp [List.filter_cons, List.filter_append, Call.isSkip, fieldCalls_skips]

/-- Witness for C11 on the sample input with three fields. -/
theorem Decode_call_order_witness :
    (rawStructDecoder.Decode (traced scripted) 4 ∅ (repeatedInput, [])).2.2.2 =
      [Call.ReadStructHeader (Outcome.ok ()),
       Call.ReadStructField (Outcome.ok (TType.TypeI32, 1)),
       Call.Skip TType.TypeI32 [] (Outcome.ok [0, 0, 0, 42]),
       Call.ReadStructField (Outcome.ok (TType.TypeString, 2)),
       Call.Skip TType.TypeString [] (Outcome.ok [0, 0, 0, 2, 104, 105]),
       Call.ReadStructField (Outcome.ok (TType.TypeI32, 1)),
       Call.Skip TType.TypeI32 [] (Outcome.ok [0, 0, 0, 7]),
       Call.ReadStructField (Outcome.ok (TType.TypeStop, 0))] ∧
    ((rawStructDecoder.Decode (traced scripted) 4 ∅ (repeatedInput, [])).2.2.2.filter
      Call.isSkip).length = 3 :=
  ⟨(Decode_call_order scripted repeatedFields 4 ∅ repeatedInput
      [Token.header TType.TypeStop 0, Token.value [9]] 0
      (by decide) (by decide) (by decide) (by decide)).1,
    (Decode_call_order scripted repeatedFields 4 ∅ repeatedInput
      [Token.header TType.TypeStop 0, Token.value [9]] 0
      (by decide) (by decide) (by decide) (by decide)).2.2.2.2.2⟩

end raw

/-! ## Skip is never called with the stop tag -/

namespace raw

theorem skip_mem_fieldCalls (fs : List WireField) (t : TType) (space : Bytes)
    (r : Outcome Bytes) (h : Call.Skip t space r ∈ fieldCalls fs) :
    ∃ f ∈ fs, t = f.ttype := by
  induction fs with
  | nil => simp [fieldCalls] at h
  | cons g rest ih =>
    simp only [fieldCalls, List.mem_cons] at h
    rcases h with h | h | h
    · cases h
    · injection h with h1 _ _
      exact ⟨g, List.mem_cons_self _ _, h1⟩
    · obtain ⟨f, hf, hft⟩ := ih h
      exact ⟨f, List.mem_cons_of_mem _ hf, hft⟩

theorem mem_fieldCalls_of_mem (fs : List WireField) (g : WireField) (hg : g ∈ fs) :
    Call.ReadStructField (Outcome.ok (g.ttype, g.id)) ∈ fieldCalls fs ∧
    Call.Skip g.ttype [] (Outcome.ok g.buffer) ∈ fieldCalls fs := by
  induction fs with
  | nil => simp at hg
  | cons f rest ih =>
    rcases List.mem_cons.mp hg with rfl | hg
    · simp [fieldCalls]
    · obtain ⟨ha, hb⟩ := ih hg
      simp only [fieldCalls, List.mem_cons]
      exact ⟨Or.inr (Or.inr ha), Or.inr (Or.inr hb)⟩

theorem lookup_stored_some (fs : List WireField) :
    ∀ (fields : Struct) (i : FieldId) (f : StructField),
      (stored fields fs).lookup i = some f →
      fields.lookup i = some f ∨
        ∃ g ∈ fs, g.id = i ∧ f = { Type_ := g.ttype, Buffer := g.buffer } := by
  induction fs with
  | nil => intro fields i f h; exact Or.inl h
  | cons g rest ih =>
    intro fields i f h
    rw [stored_cons] at h
    rcases ih _ i f h with h1 | ⟨g2, hg2, hid, hf⟩
    · by_cases hi : i = g.id
      · subst hi
        rw [Finmap.lookup_insert] at h1
        injection h1 with h1
        exact Or.inr ⟨g, List.mem_cons_self _ _, rfl, h1.symm⟩
      · rw [Finmap.lookup_insert_of_ne _ hi] at h1
        exact Or.inl h1
    · exact Or.inr ⟨g2, List.mem_cons_of_mem _ hg2, hid, hf⟩

theorem skip_mem_nextCalls {σ : Type} (iter : Iterator σ) (s : σ) (e : DecodeError)
    (hf : FailsNext iter s e) (t : TType) (space : Bytes) (r : Outcome Bytes)
    (h : Call.Skip t space r ∈ nextCalls iter s) : t ≠ TType.TypeStop := by
  rcases hf with hf | ⟨t2, id2, hread, hne, _⟩
  · simp [nextCalls, hf] at h
  · simp only [nextCalls, hread, List.mem_cons, List.mem_singleton] at h
    rcases h with h | h | h
    · cases h
    · injection h with h1 _ _
      rw [h1]; exact hne
    · simp at h

/-- C12: in every run of `rawStructDecoder.Decode`, whatever the iterator answers, every
logged `Skip` call has a tag other than stop; and when the run returns, every entry of the
stored map, under id `i` with tag `Type`, has a tag other than stop and comes from a
`ReadStructField` call of the run that returned `(Type, i)` and the `Skip` call with that tag:
a field id returned next to the stop tag is not stored on that account. -/
theorem Decode_never_skips_stop {σ : Type} (iter : Iterator σ) (fuel : Nat) (val : Struct)
    (s : σ) :
    (∀ (t : TType) (space : Bytes) (r : Outcome Bytes),
      Call.Skip t space r ∈ (rawStructDecoder.Decode (traced iter) fuel val (s, [])).2.2.2 →
      t ≠ TType.TypeStop) ∧
    ((rawStructDecoder.Decode iter fuel val s).1 = Completion.returned →
      ∀ (i : FieldId) (f : StructField),
        (rawStructDecoder.Decode iter fuel val s).2.1.lookup i = some f →
        f.Type_ ≠ TType.TypeStop ∧
        Call.ReadStructField (Outcome.ok (f.Type_, i)) ∈
          (rawStructDecoder.Decode (traced iter) fuel val (s, [])).2.2.2 ∧
        Call.Skip f.Type_ [] (Outcome.ok f.Buffer) ∈
          (rawStructDecoder.Decode (traced iter) fuel val (s, [])).2.2.2) := by
  obtain ⟨hc, hv, _⟩ := traced_Decode_sim iter fuel val s []
  rw [← hc, ← hv]
  rcases Decode_traced_shape iter fuel val s with ⟨e, _, hrun⟩ |
    ⟨_, fs, s2, hy, ⟨_, hrun⟩ | ⟨_, stopId, _, hrun⟩ | ⟨_, e, hf, hce, _, hlog⟩⟩
  · rw [hrun]
    refine ⟨?_, ?_⟩
    · intro t space r h
      simp at h
    · intro h; cases h
  · rw [hrun]
    refine ⟨?_, ?_⟩
    · intro t space r h
      simp only [List.mem_cons] at h
      rcases h with h | h
      · cases h
      · obtain ⟨f, hfm, rfl⟩ := skip_mem_fieldCalls fs t space r h
        exact yields_ne_stop iter fs _ s2 hy f hfm
    · intro h; cases h
  · rw [hrun]
    refine ⟨?_, ?_⟩
    · intro t space r h
      simp only [List.mem_cons, List.mem_append] at h
      rcases h with h | h | h
      · cases h
      · obtain ⟨f, hfm, rfl⟩ := skip_mem_fieldCalls fs t space r h
        exact yields_ne_stop iter fs _ s2 hy f hfm
      · simp at h
    · intro _ i f hl
      rcases lookup_stored_some fs ∅ i f hl with h0 | ⟨g, hg, rfl, rfl⟩
      · rw [Finmap.lookup_empty] at h0
        cases h0
      · obtain ⟨ha, hb⟩ := mem_fieldCalls_of_mem fs g hg
        refine ⟨yields_ne_stop iter fs _ s2 hy g hg, ?_, ?_⟩
        · exact List.mem_cons_of_mem _ (List.mem_append_left _ ha)
        · exact List.mem_cons_of_mem _ (List.mem_append_left _ hb)
  · rw [hlog, hce]
    refine ⟨?_, ?_⟩
    · intro t space r h
      simp only [List.mem_cons, List.mem_append] at h
      rcases h with h | h | h
      · cases h
      · obtain ⟨f, hfm, rfl⟩ := skip_mem_fieldCalls fs t space r h
        exact yields_ne_stop iter fs _ s2 hy f hfm
      · exact skip_mem_nextCalls iter s2 e hf t space r h
    · intro h; cases h

/-- Witness for C12: the scenario input, whose stop header carries the id 3; the entry under
id 2 has the tag of the header read for it, and the log holds that read and its skip. -/
theorem Decode_never_skips_stop_witness :
    TType.TypeString ≠ TType.TypeStop ∧
    Call.ReadStructField (Outcome.ok (TType.TypeString, 2)) ∈
      (rawStructDecoder.Decode (traced scripted) 3 previous (scenarioInput, [])).2.2.2 ∧
    Call.Skip TType.TypeString [] (Outcome.ok [0, 0, 0, 2, 104, 105]) ∈
      (rawStructDecoder.Decode (traced scripted) 3 previous (scenarioInput, [])).2.2.2 :=
  (Decode_never_skips_stop scripted 3 previous scenarioInput).2 (by decide) 2
    { Type_ := TType.TypeString, Buffer := [0, 0, 0, 2, 104, 105] } (by decide)

end raw

/-! ## Terminal states -/

namespace raw

theorem fieldCalls_not_terminal (fs : List WireField)
    (h : ∀ f ∈ fs, f.ttype ≠ TType.TypeStop) :
    ∀ d ∈ fieldCalls fs, d.isTerminal = false := by
  induction fs with
  | nil => intro d hd; simp [fieldCalls] at hd
  | cons f rest ih =>
    intro d hd
    simp only [fieldCalls, List.mem_cons] at hd
    rcases hd with rfl | rfl | hd
    · simp [Call.isTerminal, Call.failure, Outcome.failure, Call.isStopRead,
        h f (List.mem_cons_self _ _)]
    · simp [Call.isTerminal, Call.failure, Outcome.failure, Call.isStopRead]
    · exact ih (fun g hg => h g (List.mem_cons_of_mem _ hg)) d hd

theorem nextCalls_fails {σ : Type} (iter : Iterator σ) (s : σ) (e : DecodeError)
    (hf : FailsNext iter s e) :
    ∃ (pre : List Call) (c : Call), nextCalls iter s = pre ++ [c] ∧ c.failure = some e ∧
      ∀ d ∈ pre, d.isTerminal = false := by
  rcases hf with hf | ⟨t, id, hread, hne, hskip⟩
  · refine ⟨[], Call.ReadStructField (Outcome.fail e), by simp [nextCalls, hf], rfl, ?_⟩
    intro d hd; simp at hd
  · refine ⟨[Call.ReadStructField (Outcome.ok (t, id))], Call.Skip t [] (Outcome.fail e),
      by simp [nextCalls, hread, hskip], rfl, ?_⟩
    intro d hd
    simp only [List.mem_singleton] at hd
    subst hd
    simp [Call.isTerminal, Call.failure, Outcome.failure, Call.isStopRead, hne]

theorem header_not_terminal :
    (Call.ReadStructHeader (Outcome.ok ())).isTerminal = false := rfl

/-- C13 (amended): for every run of `rawStructDecoder.Decode`: the run is still going on (the
fuel is used up) exactly when no call of its log returned the stop tag or failed by not
returning; when it returned, the last call of the log is a `ReadStructField` that returned
stop and no call before it did so or failed; when it failed with `e`, the last call of the
log is a call that did not return, failing with `e`, and no call before it did so or
returned stop.  And a terminal state is reached: when the struct header is read and after
the fields `fs` the stop header comes, every run with more fuel than `fs` has fields
returns; when instead the next field cannot be read because a call does not return, every
such run fails with that failure; when the read of the struct header does not return, the
run fails.  A failure that the iterator only records, returning a value, does not end the
loop. -/
theorem Decode_terminal_states {σ : Type} (iter : Iterator σ) (fuel : Nat) (val : Struct)
    (s : σ) :
    ((rawStructDecoder.Decode iter fuel val s).1 = Completion.running ↔
      ∀ d ∈ (rawStructDecoder.Decode (traced iter) fuel val (s, [])).2.2.2,
        d.isTerminal = false) ∧
    ((rawStructDecoder.Decode iter fuel val s).1 = Completion.returned →
      ∃ (pre : List Call) (stopId : FieldId),
        (rawStructDecoder.Decode (traced iter) fuel val (s, [])).2.2.2 =
          pre ++ [Call.ReadStructField (Outcome.ok (TType.TypeStop, stopId))] ∧
        ∀ d ∈ pre, d.isTerminal = false) ∧
    (∀ e : DecodeError, (rawStructDecoder.Decode iter fuel val s).1 = Completion.failed e →
      ∃ (pre : List Call) (c : Call),
        (rawStructDecoder.Decode (traced iter) fuel val (s, [])).2.2.2 = pre ++ [c] ∧
        c.failure = some e ∧ ∀ d ∈ pre, d.isTerminal = false) ∧
    (∀ (fs : List WireField) (s2 : σ), (iter.ReadStructHeader s).1 = Outcome.ok () →
      Yields iter fs (iter.ReadStructHeader s).2 s2 → fs.length < fuel →
      (∀ stopId : FieldId, (iter.ReadStructField s2).1 = Outcome.ok (TType.TypeStop, stopId) →
        (rawStructDecoder.Decode iter fuel val s).1 = Completion.returned) ∧
      (∀ e : DecodeError, FailsNext iter s2 e →
        (rawStructDecoder.Decode iter fuel val s).1 = Completion.failed e)) ∧
    (∀ e : DecodeError, (iter.ReadStructHeader s).1 = Outcome.fail e →
      (rawStructDecoder.Decode iter fuel val s).1 = Completion.failed e) := by
  refine ⟨?_, ?_, ?_, ?_, ?_⟩
  · rw [← (traced_Decode_sim iter fuel val s []).1]
    rcases Decode_traced_shape iter fuel val s with ⟨e, _, hrun⟩ |
      ⟨_, fs, s2, hy, ⟨_, hrun⟩ | ⟨_, stopId, _, hrun⟩ | ⟨_, e, hf, hce, _, hlog⟩⟩
    · rw [hrun]
      constructor
      · intro h; cases h
      · intro h
        have := h (Call.ReadStructHeader (Outcome.fail e)) (by simp)
        simp [Call.isTerminal, Call.failure, Outcome.failure] at this
    · rw [hrun]
      constructor
      · intro _ d hd
        rcases List.mem_cons.mp hd with rfl | hd
        · rfl
        · exact fieldCalls_not_terminal fs (yields_ne_stop iter fs _ s2 hy) d hd
      · intro _; rfl
    · rw [hrun]
      constructor
      · intro h; cases h
      · intro h
        have := h (Call.ReadStructField (Outcome.ok (TType.TypeStop, stopId))) (by simp)
        simp [Call.isTerminal, Call.isStopRead] at this
    · rw [hlog, hce]
      constructor
      · intro h; cases h
      · intro h
        obtain ⟨pre, c, hn, hc, _⟩ := nextCalls_fails iter s2 e hf
        have := h c (by rw [hn]; simp)
        simp [Call.isTerminal, hc] at this
  · rw [← (traced_Decode_sim iter fuel val s []).1]
    rcases Decode_traced_shape iter fuel val s with ⟨e, _, hrun⟩ |
      ⟨_, fs, s2, hy, ⟨_, hrun⟩ | ⟨_, stopId, _, hrun⟩ | ⟨_, e, hf, hce, _, hlog⟩⟩
    · rw [hrun]; intro h; cases h
    · rw [hrun]; intro h; cases h
    · rw [hrun]
      intro _
      refine ⟨Call.ReadStructHeader (Outcome.ok ()) :: fieldCalls fs, stopId, by simp, ?_⟩
      intro d hd
      rcases List.mem_cons.mp hd with rfl | hd
      · rfl
      · exact fieldCalls_not_terminal fs (yields_ne_stop iter fs _ s2 hy) d hd
    · rw [hce]; intro h; cases h
  · intro e0
    rw [← (traced_Decode_sim iter fuel val s []).1]
    rcases Decode_traced_shape iter fuel val s with ⟨e, _, hrun⟩ |
      ⟨_, fs, s2, hy, ⟨_, hrun⟩ | ⟨_, stopId, _, hrun⟩ | ⟨_, e, hf, hce, _, hlog⟩⟩
    · rw [hrun]
      intro h
      injection h with h
      subst h
      exact ⟨[], Call.ReadStructHeader (Outcome.fail e), by simp, rfl, by simp⟩
    · rw [hrun]; intro h; cases h
    · rw [hrun]; intro h; cases h
    · rw [hlog, hce]
      intro h
      injection h with h
      subst h
      obtain ⟨pre, c, hn, hc, hpre⟩ := nextCalls_fails iter s2 e hf
      refine ⟨Call.ReadStructHeader (Outcome.ok ()) :: (fieldCalls fs ++ pre), c,
        by rw [hn]; simp, hc, ?_⟩
      intro d hd
      simp only [List.mem_cons, List.mem_append] at hd
      rcases hd with rfl | hd | hd
      · rfl
      · exact fieldCalls_not_terminal fs (yields_ne_stop iter fs _ s2 hy) d hd
      · exact hpre d hd
  · intro fs s2 hh hy hfuel
    have e0 : iter.ReadStructHeader s = (Outcome.ok (), (iter.ReadStructHeader s).2) :=
      Prod.ext hh rfl
    refine ⟨?_, ?_⟩
    · intro stopId hs
      rw [Decode_yields iter fs fuel val s s2 stopId hh hy hs hfuel]
    · intro e hf
      obtain ⟨k, rfl⟩ : ∃ k, fuel = fs.length + (k + 1) := ⟨fuel - fs.length - 1, by omega⟩
      rw [rawStructDecoder.Decode, e0]
      simp only []
      rw [loop_yields iter fs (k + 1) ∅ val _ s2 hy]
      exact (loop_fails iter k _ val s2 e hf).1
  · intro e he
    have e0 : iter.ReadStructHeader s = (Outcome.fail e, (iter.ReadStructHeader s).2) :=
      Prod.ext he rfl
    rw [rawStructDecoder.Decode, e0]

/-- Witness for C13 (amended): on the sample input with three fields and then the stop
header the run with four units of fuel returns; on the input cut off in its second field,
where the skip does not return, the run fails with that failure; on the input that never
ends, where no call fails or returns stop, the run is still going on when its fuel is used
up. -/
theorem Decode_terminal_states_witness :
    (rawStructDecoder.Decode scripted 4 previous repeatedInput).1 = Completion.returned ∧
    (rawStructDecoder.Decode scripted 3 previous truncatedInput).1 =
      Completion.failed DecodeError.UnexpectedEndOfInput ∧
    (rawStructDecoder.Decode endless 6 previous ()).1 = Completion.running :=
  ⟨((Decode_terminal_states scripted 4 previous repeatedInput).2.2.2.1 repeatedFields
      [Token.header TType.TypeStop 0, Token.value [9]] (by decide) (by decide) (by decide)).1 0
      (by decide),
    ((Decode_terminal_states scripted 3 previous truncatedInput).2.2.2.1 truncatedFields
      [Token.header TType.TypeString 2] (by decide) (by decide) (by decide)).2
      DecodeError.UnexpectedEndOfInput
      (Or.inr ⟨TType.TypeString, 2, by decide, by decide, by decide⟩),
    (Decode_terminal_states endless 6 previous ()).1.mpr (by decide)⟩

end raw

/-! ## The target and the previous content of the target -/

namespace raw

theorem loop_target {σ : Type} (iter : Iterator σ) :
    ∀ (fuel : Nat) (fields val val2 : Struct) (s : σ),
      (rawStructDecoder.loop iter fuel fields val s).1 =
        (rawStructDecoder.loop iter fuel fields val2 s).1 ∧
      (rawStructDecoder.loop iter fuel fields val s).2.2 =
        (rawStructDecoder.loop iter fuel fields val2 s).2.2 ∧
      ((rawStructDecoder.loop iter fuel fields val s).1 = Completion.returned →
        (rawStructDecoder.loop iter fuel fields val s).2.1 =
          (rawStructDecoder.loop iter fuel fields val2 s).2.1) ∧
      ((rawStructDecoder.loop iter fuel fields val s).1 ≠ Completion.returned →
        (rawStructDecoder.loop iter fuel fields val s).2.1 = val) := by
  intro fuel
  induction fuel with
  | zero =>
    intro fields val val2 s
    exact ⟨rfl, rfl, (fun h => by cases h), (fun _ => rfl)⟩
  | succ n ih =>
    intro fields val val2 s
    rw [rawStructDecoder.loop, rawStructDecoder.loop]
    rcases h1 : iter.ReadStructField s with ⟨r, s1⟩
    cases r with
    | fail e => exact ⟨rfl, rfl, (fun h => by cases h), (fun _ => rfl)⟩
    | ok p =>
      obtain ⟨t, id⟩ := p
      simp only []
      by_cases ht : t = TType.TypeStop
      · subst ht
        simp
      · simp only [if_neg ht]
        rcases h2 : iter.Skip t [] s1 with ⟨r2, s3⟩
        cases r2 with
        | fail e => exact ⟨rfl, rfl, (fun h => by cases h), (fun _ => rfl)⟩
        | ok b => exact ih _ val val2 s3

end raw

/-! ## Determinism and the order of the fields -/

namespace raw

theorem lookup_stored_of_mem_nodup (fs : List WireField) :
    ∀ (fields : Struct), (fs.map WireField.id).Nodup → ∀ g ∈ fs,
      (stored fields fs).lookup g.id = some { Type_ := g.ttype, Buffer := g.buffer } := by
  induction fs with
  | nil => intro fields _ g hg; simp at hg
  | cons f rest ih =>
    intro fields hnd g hg
    simp only [List.map_cons, List.nodup_cons] at hnd
    rw [stored_cons]
    rcases List.mem_cons.mp hg with rfl | hg
    · rw [lookup_stored_of_not_mem rest _ _ hnd.1, Finmap.lookup_insert]
    · exact ih _ hnd.2 g hg

theorem stored_perm (fs gs : List WireField) (fields : Struct) (hp : fs.Perm gs)
    (hnd : (fs.map WireField.id).Nodup) : stored fields fs = stored fields gs := by
  have hnd2 : (gs.map WireField.id).Nodup := (hp.map WireField.id).nodup_iff.mp hnd
  apply Finmap.ext_lookup
  intro i
  by_cases hi : i ∈ fs.map WireField.id
  · obtain ⟨g, hg, rfl⟩ := List.mem_map.mp hi
    rw [lookup_stored_of_mem_nodup fs fields hnd g hg,
      lookup_stored_of_mem_nodup gs fields hnd2 g (hp.mem_iff.mp hg)]
  · have hi2 : i ∉ gs.map WireField.id := fun h => hi ((hp.map WireField.id).mem_iff.mpr h)
    rw [lookup_stored_of_not_mem fs fields i hi, lookup_stored_of_not_mem gs fields i hi2]

/-- C15: two runs of `rawStructDecoder.Decode`, on any two iterators (of any kinds of cursor
state), with any previous contents of their targets, return equal maps when the iterators
yield the same fields (headers and skip results) in the same order before the stop header,
and also when they yield fields with pairwise distinct ids that are the same up to their
order. -/
theorem Decode_deterministic {σ τ : Type} (iter1 : Iterator σ) (iter2 : Iterator τ)
    (fs gs : List WireField) (fuel1 fuel2 : Nat) (val1 val2 : Struct)
    (s1 t1 : σ) (s2 t2 : τ) (stop1 stop2 : FieldId)
    (hh1 : (iter1.ReadStructHeader s1).1 = Outcome.ok ())
    (hy1 : Yields iter1 fs (iter1.ReadStructHeader s1).2 t1)
    (hs1 : (iter1.ReadStructField t1).1 = Outcome.ok (TType.TypeStop, stop1))
    (hfuel1 : fs.length < fuel1)
    (hh2 : (iter2.ReadStructHeader s2).1 = Outcome.ok ())
    (hy2 : Yields iter2 gs (iter2.ReadStructHeader s2).2 t2)
    (hs2 : (iter2.ReadStructField t2).1 = Outcome.ok (TType.TypeStop, stop2))
    (hfuel2 : gs.length < fuel2)
    (hsame : gs = fs ∨ (fs.Perm gs ∧ (fs.map WireField.id).Nodup)) :
    (rawStructDecoder.Decode iter1 fuel1 val1 s1).1 = Completion.returned ∧
    (rawStructDecoder.Decode iter2 fuel2 val2 s2).1 = Completion.returned ∧
    (rawStructDecoder.Decode iter1 fuel1 val1 s1).2.1 =
      (rawStructDecoder.Decode iter2 fuel2 val2 s2).2.1 := by
  rw [Decode_yields iter1 fs fuel1 val1 s1 t1 stop1 hh1 hy1 hs1 hfuel1,
    Decode_yields iter2 gs fuel2 val2 s2 t2 stop2 hh2 hy2 hs2 hfuel2]
  refine ⟨rfl, rfl, ?_⟩
  rcases hsame with rfl | ⟨hp, hnd⟩
  · rfl
  · exact stored_perm fs gs ∅ hp hnd

/-- Witness for C15: the scenario on the scripted iterator and the scenario with its fields
in the other order on the positional iterator. -/
theorem Decode_deterministic_witness :
    (rawStructDecoder.Decode scripted 3 previous scenarioInput).1 = Completion.returned ∧
    (rawStructDecoder.Decode (positional swappedInput) 5 ∅ 0).1 = Completion.returned ∧
    (rawStructDecoder.Decode scripted 3 previous scenarioInput).2.1 =
      (rawStructDecoder.Decode (positional swappedInput) 5 ∅ 0).2.1 :=
  Decode_deterministic scripted (positional swappedInput) scenarioFields swappedFields
    3 5 previous ∅ scenarioInput [Token.header TType.TypeStop 3] 0 4 3 0
    (by decide) (by decide) (by decide) (by decide)
    (by decide) (by decide) (by decide) (by decide)
    (Or.inr ⟨List.Perm.swap _ _ _, by decide⟩)

end raw

/-! ## Where the target is assigned -/

namespace raw

theorem loop_running_of_yields {σ : Type} (iter : Iterator σ) (fs : List WireField) :
    ∀ (k : Nat) (fields val : Struct) (s s2 : σ), Yields iter fs s s2 → k ≤ fs.length →
      (rawStructDecoder.loop iter k fields val s).1 = Completion.running ∧
      (rawStructDecoder.loop iter k fields val s).2.1 = val := by
  induction fs with
  | nil =>
    intro k fields val s s2 _ hk
    have hk0 : k = 0 := by simpa using hk
    subst hk0
    exact ⟨rfl, rfl⟩
  | cons f rest ih =>
    intro k fields val s s2 hy hk
    cases k with
    | zero => exact ⟨rfl, rfl⟩
    | succ k =>
      obtain ⟨hne, hread, hskip, hrest⟩ := hy
      have e1 : iter.ReadStructField s =
          (Outcome.ok (f.ttype, f.id), (iter.ReadStructField s).2) := Prod.ext hread rfl
      have e2 : iter.Skip f.ttype [] (iter.ReadStructField s).2 =
          (Outcome.ok f.buffer, (iter.Skip f.ttype [] (iter.ReadStructField s).2).2) :=
        Prod.ext hskip rfl
      rw [rawStructDecoder.loop, e1]
      simp only [if_neg hne]
      rw [e2]
      exact ih k _ val _ s2 hrest (by simpa using hk)

theorem Decode_running_of_yields {σ : Type} (iter : Iterator σ) (fs : List WireField)
    (k : Nat) (val : Struct) (s s2 : σ)
    (hh : (iter.ReadStructHeader s).1 = Outcome.ok ())
    (hy : Yields iter fs (iter.ReadStructHeader s).2 s2) (hk : k ≤ fs.length) :
    (rawStructDecoder.Decode iter k val s).1 = Completion.running ∧
    (rawStructDecoder.Decode iter k val s).2.1 = val := by
  have e0 : iter.ReadStructHeader s = (Outcome.ok (), (iter.ReadStructHeader s).2) :=
    Prod.ext hh rfl
  rw [rawStructDecoder.Decode, e0]
  exact loop_running_of_yields iter fs k ∅ val _ s2 hy hk

/-- A run whose target does not hold its previous content any more has returned, and the last
call of its log is a `ReadStructField` that returned the stop tag. -/
theorem assigned_only_at_stop {σ : Type} (iter : Iterator σ) (fuel : Nat) (val : Struct)
    (s : σ) (h : (rawStructDecoder.Decode iter fuel val s).2.1 ≠ val) :
    (rawStructDecoder.Decode iter fuel val s).1 = Completion.returned ∧
    ∃ (pre : List Call) (stopId : FieldId),
      (rawStructDecoder.Decode (traced iter) fuel val (s, [])).2.2.2 =
        pre ++ [Call.ReadStructField (Outcome.ok (TType.TypeStop, stopId))] ∧
      ∀ d ∈ pre, d.isTerminal = false := by
  obtain ⟨hc, hv, _⟩ := traced_Decode_sim iter fuel val s []
  rw [← hv] at h
  rw [← hc]
  rcases Decode_traced_shape iter fuel val s with ⟨e, _, hrun⟩ |
    ⟨_, fs, s2, hy, ⟨_, hrun⟩ | ⟨_, stopId, _, hrun⟩ | ⟨_, e, hf, hce, hval, hlog⟩⟩
  · rw [hrun] at h; exact absurd rfl h
  · rw [hrun] at h; exact absurd rfl h
  · rw [hrun]
    refine ⟨rfl, Call.ReadStructHeader (Outcome.ok ()) :: fieldCalls fs, stopId, by simp, ?_⟩
    intro d hd
    rcases List.mem_cons.mp hd with rfl | hd
    · rfl
    · exact fieldCalls_not_terminal fs (yields_ne_stop iter fs _ s2 hy) d hd
  · exact absurd hval h

/-- C4 (amended): `rawStructDecoder.Decode` assigns the target only when a `ReadStructField`
call returns the stop tag: a run that left the target with another content than before has
returned, and the last call of its log is a read that returned stop.  So for an input
truncated mid-field on which the call that underflows does not return (the read of the field
header, or the skip of its value, fails with `UnexpectedEndOfInput`), the run fails with
`UnexpectedEndOfInput` and the target still holds what it held before the call.  The decoder
consults no error state of the iterator: nothing is said for an iterator that records the
underflow and returns. -/
theorem Decode_failure_atomic {σ : Type} (iter : Iterator σ) (fuel : Nat) (val : Struct)
    (s : σ) :
    ((rawStructDecoder.Decode iter fuel val s).2.1 ≠ val →
      (rawStructDecoder.Decode iter fuel val s).1 = Completion.returned ∧
      ∃ (pre : List Call) (stopId : FieldId),
        (rawStructDecoder.Decode (traced iter) fuel val (s, [])).2.2.2 =
          pre ++ [Call.ReadStructField (Outcome.ok (TType.TypeStop, stopId))]) ∧
    (∀ (fs : List WireField) (s2 : σ), (iter.ReadStructHeader s).1 = Outcome.ok () →
      Yields iter fs (iter.ReadStructHeader s).2 s2 →
      FailsNext iter s2 DecodeError.UnexpectedEndOfInput → fs.length < fuel →
      (rawStructDecoder.Decode iter fuel val s).1 =
        Completion.failed DecodeError.UnexpectedEndOfInput ∧
      (rawStructDecoder.Decode iter fuel val s).2.1 = val) := by
  refine ⟨?_, ?_⟩
  · intro h
    obtain ⟨hr, pre, stopId, hlog, _⟩ := assigned_only_at_stop iter fuel val s h
    exact ⟨hr, pre, stopId, hlog⟩
  · intro fs s2 hh hy hf hfuel
    have e0 : iter.ReadStructHeader s = (Outcome.ok (), (iter.ReadStructHeader s).2) :=
      Prod.ext hh rfl
    obtain ⟨k, rfl⟩ : ∃ k, fuel = fs.length + (k + 1) := ⟨fuel - fs.length - 1, by omega⟩
    rw [rawStructDecoder.Decode, e0]
    simp only []
    rw [loop_yields iter fs (k + 1) ∅ val _ s2 hy]
    exact loop_fails iter k _ val s2 _ hf

/-- Witness for C4 (amended): the input is cut off after the header of its second field and
the skip does not return; the target held one entry before the call and holds the same entry
afterwards. -/
theorem Decode_failure_atomic_witness :
    (rawStructDecoder.Decode scripted 3 previous truncatedInput).1 =
      Completion.failed DecodeError.UnexpectedEndOfInput ∧
    (rawStructDecoder.Decode scripted 3 previous truncatedInput).2.1 = previous :=
  (Decode_failure_atomic scripted 3 previous truncatedInput).2 truncatedFields
    [Token.header TType.TypeString 2]
    (by decide) (by decide) (Or.inr ⟨TType.TypeString, 2, by decide, by decide, by decide⟩)
    (by decide)

/-- C4, as stated, fails: on the input cut off after the header of its second field, read
through an iterator that records the end of input and returns, the underflow is recorded
(`UnexpectedEndOfInput` in the error field after the run), yet the run does not fail: it
returns, and the target is assigned a partially populated map, with field 1 and with field 2
under an empty buffer. -/
theorem Decode_failure_atomic_counterexample :
    (rawStructDecoder.Decode (recorded scripted) 3 previous (truncatedInput, none)).2.2.2 =
      some DecodeError.UnexpectedEndOfInput ∧
    (rawStructDecoder.Decode (recorded scripted) 3 previous (truncatedInput, none)).1 =
      Completion.returned ∧
    (rawStructDecoder.Decode (recorded scripted) 3 previous (truncatedInput, none)).1 ≠
      Completion.failed DecodeError.UnexpectedEndOfInput ∧
    (rawStructDecoder.Decode (recorded scripted) 3 previous (truncatedInput, none)).2.1 ≠
      previous ∧
    (rawStructDecoder.Decode (recorded scripted) 3 previous (truncatedInput, none)).2.1.lookup 1 =
      some { Type_ := TType.TypeI32, Buffer := [0, 0, 0, 42] } ∧
    (rawStructDecoder.Decode (recorded scripted) 3 previous (truncatedInput, none)).2.1.lookup 2 =
      some { Type_ := TType.TypeString, Buffer := [] } := by
  decide

/-- C5, as stated, fails: on the input whose field 1 has no value, read through an iterator
that records a failure and returns, the skip of field 1 fails on the cursor (third call of
the log of the cursor), and after it the decoder reads the header of field 3, skips its
value and reads the stop header; the run returns instead of ending with the failure. -/
theorem Decode_stops_at_failure_counterexample :
    (rawStructDecoder.Decode (recorded (traced scripted)) 4 previous
        ((garbledInput, []), none)).2.2.1.2 =
      [Call.ReadStructHeader (Outcome.ok ()),
       Call.ReadStructField (Outcome.ok (TType.TypeI32, 1))] ++
      Call.Skip TType.TypeI32 [] (Outcome.fail DecodeError.InvalidTypeTag) ::
      [Call.ReadStructField (Outcome.ok (TType.TypeBool, 3)),
       Call.Skip TType.TypeBool [] (Outcome.ok [1]),
       Call.ReadStructField (Outcome.ok (TType.TypeStop, 0))] ∧
    (Call.Skip TType.TypeI32 [] (Outcome.fail DecodeError.InvalidTypeTag)).failure =
      some DecodeError.InvalidTypeTag ∧
    (rawStructDecoder.Decode (recorded (traced scripted)) 4 previous
        ((garbledInput, []), none)).1 = Completion.returned ∧
    (rawStructDecoder.Decode (recorded (traced scripted)) 4 previous
        ((garbledInput, []), none)).2.1.keys = {1, 3} := by
  decide

/-- C13, as stated, fails in its failure half: on the input cut off after the header of its
second field, read through an iterator that records the end of input and returns, the skip
of field 2 underflows on the cursor (fifth call of the log of the cursor), and the run does
not end at that failure: the decoder reads one more field header, and the run ends as
returned, on the stop tag the iterator returned, not as failed; with fuel for two
turns of the loop only, the run is still going on after the failed skip. -/
theorem Decode_terminal_states_counterexample :
    (rawStructDecoder.Decode (recorded (traced scripted)) 3 previous
        ((truncatedInput, []), none)).2.2.1.2 =
      [Call.ReadStructHeader (Outcome.ok ()),
       Call.ReadStructField (Outcome.ok (TType.TypeI32, 1)),
       Call.Skip TType.TypeI32 [] (Outcome.ok [0, 0, 0, 42]),
       Call.ReadStructField (Outcome.ok (TType.TypeString, 2)),
       Call.Skip TType.TypeString [] (Outcome.fail DecodeError.UnexpectedEndOfInput),
       Call.ReadStructField (Outcome.fail DecodeError.UnexpectedEndOfInput)] ∧
    (rawStructDecoder.Decode (recorded (traced scripted)) 3 previous
        ((truncatedInput, []), none)).1 = Completion.returned ∧
    (rawStructDecoder.Decode (recorded (traced scripted)) 3 previous
        ((truncatedInput, []), none)).1 ≠
      Completion.failed DecodeError.UnexpectedEndOfInput ∧
    (rawStructDecoder.Decode (recorded (traced scripted)) 2 previous
        ((truncatedInput, []), none)).1 = Completion.running := by
  decide

end raw

namespace raw

theorem entries_from_run {σ : Type} (iter : Iterator σ) (fuel : Nat) (val : Struct) (s : σ)
    (hr : (rawStructDecoder.Decode iter fuel val s).1 = Completion.returned) :
    ∀ (i : FieldId) (f : StructField),
      (rawStructDecoder.Decode iter fuel val s).2.1.lookup i = some f →
      Call.ReadStructField (Outcome.ok (f.Type_, i)) ∈
        (rawStructDecoder.Decode (traced iter) fuel val (s, [])).2.2.2 := by
  obtain ⟨hc, hv, _⟩ := traced_Decode_sim iter fuel val s []
  rw [← hc] at hr
  rw [← hv]
  rcases Decode_traced_shape iter fuel val s with ⟨e, _, hrun⟩ |
    ⟨_, fs, s2, hy, ⟨_, hrun⟩ | ⟨_, stopId, _, hrun⟩ | ⟨_, e, hf, hce, _, hlog⟩⟩
  · rw [hrun] at hr; cases hr
  · rw [hrun] at hr; cases hr
  · rw [hrun]
    intro i f hl
    rcases lookup_stored_some fs ∅ i f hl with h0 | ⟨g, hg, rfl, rfl⟩
    · rw [Finmap.lookup_empty] at h0
      cases h0
    · exact List.mem_cons_of_mem _ (List.mem_append_left _ (mem_fieldCalls_of_mem fs g hg).1)
  · rw [hce] at hr; cases hr

/-- C14: `rawStructDecoder.Decode` writes the target at the moment the stop marker is read,
and only then.  In every run, a target that no longer holds its previous content means that
the run returned and that the last call of its log is the first `ReadStructField` that
returned stop.  The map written is built in the run: every entry comes from a field header
read in the run, and started with any other previous content `val2` the run returns the same
map (old entries are not merged).  Seen step by step on a struct with the fields `fs` and
then the stop header: with fuel for at most as many turns of the loop as there are fields
the stop marker is not read yet, the run is still going on and the target holds its previous
content; with any more fuel the run has returned and the target holds one and the same map,
whose keys are the ids of `fs`: the content of the target changes once. -/
theorem Decode_assigns_fresh {σ : Type} (iter : Iterator σ) (val val2 : Struct) (s : σ) :
    (∀ fuel : Nat, (rawStructDecoder.Decode iter fuel val s).2.1 ≠ val →
      (rawStructDecoder.Decode iter fuel val s).1 = Completion.returned ∧
      ∃ (pre : List Call) (stopId : FieldId),
        (rawStructDecoder.Decode (traced iter) fuel val (s, [])).2.2.2 =
          pre ++ [Call.ReadStructField (Outcome.ok (TType.TypeStop, stopId))] ∧
        ∀ d ∈ pre, d.isTerminal = false) ∧
    (∀ fuel : Nat, (rawStructDecoder.Decode iter fuel val s).1 = Completion.returned →
      (∃ (pre : List Call) (stopId : FieldId),
        (rawStructDecoder.Decode (traced iter) fuel val (s, [])).2.2.2 =
          pre ++ [Call.ReadStructField (Outcome.ok (TType.TypeStop, stopId))]) ∧
      (rawStructDecoder.Decode iter fuel val2 s).1 = Completion.returned ∧
      (rawStructDecoder.Decode iter fuel val s).2.1 =
        (rawStructDecoder.Decode iter fuel val2 s).2.1 ∧
      ∀ (i : FieldId) (f : StructField),
        (rawStructDecoder.Decode iter fuel val s).2.1.lookup i = some f →
        Call.ReadStructField (Outcome.ok (f.Type_, i)) ∈
          (rawStructDecoder.Decode (traced iter) fuel val (s, [])).2.2.2) ∧
    (∀ (fs : List WireField) (s2 : σ) (stopId : FieldId),
      (iter.ReadStructHeader s).1 = Outcome.ok () →
      Yields iter fs (iter.ReadStructHeader s).2 s2 →
      (iter.ReadStructField s2).1 = Outcome.ok (TType.TypeStop, stopId) →
      (∀ k : Nat, k ≤ fs.length →
        (rawStructDecoder.Decode iter k val s).1 = Completion.running ∧
        (rawStructDecoder.Decode iter k val s).2.1 = val) ∧
      (∀ k : Nat, fs.length < k →
        (rawStructDecoder.Decode iter k val s).1 = Completion.returned ∧
        (rawStructDecoder.Decode iter k val s).2.1.keys = (fs.map WireField.id).toFinset ∧
        (rawStructDecoder.Decode iter k val s).2.1 =
          (rawStructDecoder.Decode iter (fs.length + 1) val2 s).2.1)) := by
  refine ⟨?_, ?_, ?_⟩
  · intro fuel h
    exact assigned_only_at_stop iter fuel val s h
  · intro fuel hr
    have hsame : (rawStructDecoder.Decode iter fuel val s).1 =
          (rawStructDecoder.Decode iter fuel val2 s).1 ∧
        ((rawStructDecoder.Decode iter fuel val s).1 = Completion.returned →
          (rawStructDecoder.Decode iter fuel val s).2.1 =
            (rawStructDecoder.Decode iter fuel val2 s).2.1) := by
      rw [rawStructDecoder.Decode, rawStructDecoder.Decode]
      rcases h0 : iter.ReadStructHeader s with ⟨r, s1⟩
      cases r with
      | fail e => exact ⟨rfl, (fun h => by cases h)⟩
      | ok u =>
        obtain ⟨ha, _, hb, _⟩ := loop_target iter fuel ∅ val val2 s1
        exact ⟨ha, hb⟩
    refine ⟨?_, ?_, hsame.2 hr, entries_from_run iter fuel val s hr⟩
    · obtain ⟨hc, _, _⟩ := traced_Decode_sim iter fuel val s []
      rw [← hc] at hr
      rcases Decode_traced_shape iter fuel val s with ⟨e, _, hrun⟩ |
        ⟨_, fs, s2, hy, ⟨_, hrun⟩ | ⟨_, stopId, _, hrun⟩ | ⟨_, e, hf, hce, _, hlog⟩⟩
      · rw [hrun] at hr; cases hr
      · rw [hrun] at hr; cases hr
      · rw [hrun]
        exact ⟨Call.ReadStructHeader (Outcome.ok ()) :: fieldCalls fs, stopId, by simp⟩
      · rw [hce] at hr; cases hr
    · rw [← hsame.1]; exact hr
  · intro fs s2 stopId hh hy hs
    refine ⟨?_, ?_⟩
    · intro k hk
      exact Decode_running_of_yields iter fs k val s s2 hh hy hk
    · intro k hk
      rw [Decode_yields iter fs k val s s2 stopId hh hy hs hk,
        Decode_yields iter fs (fs.length + 1) val2 s s2 stopId hh hy hs (Nat.lt_succ_self _)]
      refine ⟨rfl, ?_, rfl⟩
      simp [keys_stored]

/-- Witness for C14: on the scenario input, with a target that held an entry under field
id 7: with fuel for two turns of the loop the run is still going on and the target holds
that entry; with fuel for three it has returned, and the target holds the map with the keys
1 and 2 that a run started with an empty target assigns. -/
theorem Decode_assigns_fresh_witness :
    ((rawStructDecoder.Decode scripted 2 previous scenarioInput).1 = Completion.running ∧
      (rawStructDecoder.Decode scripted 2 previous scenarioInput).2.1 = previous) ∧
    ((rawStructDecoder.Decode scripted 3 previous scenarioInput).1 = Completion.returned ∧
      (rawStructDecoder.Decode scripted 3 previous scenarioInput).2.1.keys =
        (scenarioFields.map WireField.id).toFinset ∧
      (rawStructDecoder.Decode scripted 3 previous scenarioInput).2.1 =
        (rawStructDecoder.Decode scripted (scenarioFields.length + 1) ∅ scenarioInput).2.1) :=
  ⟨((Decode_assigns_fresh scripted previous ∅ scenarioInput).2.2 scenarioFields
      [Token.header TType.TypeStop 3] 3 (by decide) (by decide) (by decide)).1 2 (by decide),
    ((Decode_assigns_fresh scripted previous ∅ scenarioInput).2.2 scenarioFields
      [Token.header TType.TypeStop 3] 3 (by decide) (by decide) (by decide)).2 3 (by decide)⟩

end raw
